import Mathlib

/-!
Verification of the AWS_LMS2 timesheet type layer.

This file gives a shallow embedding of the repository source:
  * `src/types/jira.ts`   : `parseJiraTimeSpent`, `formatHoursAsJiraTime`
  * `src/validation file` : `validateData`, `validateGroupingConfig`,
    `validateTimesheetEntry`, `sanitizeFileName`
  * `src/types/core.ts`, `src/types/grouping.ts`, `src/types/api.ts` :
    the zod schemas and boolean type guards
together with a model of the group tree builder, which is declared only as
a data shape (`GroupNode`) in this repository; the builder itself is
modelled from the specification.

JavaScript strings are modelled as `List Char`, JavaScript numbers as `ℚ`.
-/

/-! ## Decimal numerals

`digitsOf n` is the list of characters of the base-10 numeral of `n`,
matching the JavaScript template rendering of a nonnegative number. -/

def digitChar (d : ℕ) : Char := Char.ofNat (48 + d)

def digitsOf (n : ℕ) : List Char :=
  if n = 0 then ['0'] else (Nat.digits 10 n).reverse.map digitChar

/-- The numeric value of a list of decimal digit characters, as computed by
`parseInt(s, 10)` on an all-digit string. -/
def parseDigits (l : List Char) : ℕ :=
  l.foldl (fun a c => 10 * a + (c.toNat - 48)) 0

/-! ## The regexes of `parseJiraTimeSpent`

`timeSpent.match(/(\d+)d/)` (and the `h`, `m` variants) returns the leftmost
occurrence of a digit run immediately followed by the marker character, and
captures that digit run.  `findNumAux` performs that scan in one pass: `run`
holds the numeric value of the digit run ending at the current position. -/

def findNumAux (t : Char) : Option ℕ → List Char → Option ℕ
  | _, [] => none
  | run, c :: cs =>
    if c.isDigit then findNumAux t (some (10 * (run.getD 0) + (c.toNat - 48))) cs
    else if c = t then
      match run with
      | some n => some n
      | none => findNumAux t none cs
    else findNumAux t none cs

def findNum (t : Char) (s : List Char) : Option ℕ :=
  findNumAux t none s

/-- `parseJiraTimeSpent` from `src/types/jira.ts`: day/hour/minute components
are extracted by regex (absent components count as 0) and combined with the
8-hour-day convention: `(days * 8) + hours + (minutes / 60)`. -/
def parseJiraTimeSpent (timeSpent : List Char) : ℚ :=
  let days : ℕ := (findNum 'd' timeSpent).getD 0
  let hours : ℕ := (findNum 'h' timeSpent).getD 0
  let minutes : ℕ := (findNum 'm' timeSpent).getD 0
  (days : ℚ) * 8 + (hours : ℚ) + (minutes : ℚ) / 60

/-- `parts.join(' ')`: the parts joined by single spaces. -/
def joinSp : List (List Char) → List Char
  | [] => []
  | [p] => p
  | p :: ps => p ++ ' ' :: joinSp ps

/-- `formatHoursAsJiraTime` from `src/types/jira.ts`:
`wholeHours = Math.floor(hours)`, `minutes = Math.round((hours - wholeHours) * 60)`
(JavaScript `Math.round` is `⌊x + 1/2⌋`); returns `'0m'` when both are zero,
otherwise the nonzero parts `"${wholeHours}h"` / `"${minutes}m"` joined by a
space.  Numerals are rendered by `digitsOf`, which matches the JavaScript
rendering for the nonnegative values produced here. -/
def formatHoursAsJiraTime (hours : ℚ) : List Char :=
  let wholeHours : ℤ := ⌊hours⌋
  let minutes : ℤ := ⌊(hours - (wholeHours : ℚ)) * 60 + 1 / 2⌋
  if wholeHours = 0 ∧ minutes = 0 then ['0', 'm']
  else
    joinSp
      ((if 0 < wholeHours then [digitsOf wholeHours.toNat ++ ['h']] else []) ++
       (if 0 < minutes then [digitsOf minutes.toNat ++ ['m']] else []))

/-- A Jira time string made of the optional components `"Nd"`, `"Mh"`, `"Km"`
(in that order), joined by single spaces — the input shape described for
`parseJiraTimeSpent` (for example `"1d 3h"`, `"2h 30m"`). -/
def jiraTimeString (d h m : Option ℕ) : List Char :=
  joinSp
    ((d.map (fun n => digitsOf n ++ ['d'])).toList ++
     (h.map (fun n => digitsOf n ++ ['h'])).toList ++
     (m.map (fun n => digitsOf n ++ ['m'])).toList)

/-! ## `sanitizeFileName`

`fileName.replace(/[^a-zA-Z0-9.-]/g, '_').replace(/_{2,}/g, '_').replace(/^_|_$/g, '')`
from the validation module.  The three passes are modelled separately. -/

/-- Membership in the character class `[a-zA-Z0-9.-]`. -/
def fileNameChar (c : Char) : Bool :=
  c.isAlpha || c.isDigit || c = '.' || c = '-'

/-- Pass 1: every character outside `[a-zA-Z0-9.-]` becomes `'_'`. -/
def underscoreBad (s : List Char) : List Char :=
  s.map (fun c => if fileNameChar c then c else '_')

/-- Pass 2: each maximal run of two or more underscores becomes a single
underscore (`replace(/_{2,}/g, '_')`): an underscore directly followed by
another underscore is dropped. -/
def collapseUnderscores : List Char → List Char
  | [] => []
  | [c] => [c]
  | a :: b :: rest =>
    if a = '_' ∧ b = '_' then collapseUnderscores (b :: rest)
    else a :: collapseUnderscores (b :: rest)

/-- Drop one leading underscore, if present. -/
def dropLeadUnderscore : List Char → List Char
  | [] => []
  | c :: rest => if c = '_' then rest else c :: rest

/-- Pass 3, `replace(/^_|_$/g, '')`: the two anchored alternatives remove at
most one leading and one trailing underscore. -/
def trimUnderscores (s : List Char) : List Char :=
  (dropLeadUnderscore (dropLeadUnderscore s).reverse).reverse

def sanitizeFileName (fileName : List Char) : List Char :=
  trimUnderscores (collapseUnderscores (underscoreBad fileName))

/-! ## The zod validation model

A deep embedding of the zod subset this repository uses.  `Value` is the
JSON-with-undefined value space seen by `safeParse`; `Sch` is the schema
language; `parseS` is `schema.safeParse`, collecting a list of issues
(path plus message) exactly when parsing fails. -/

inductive Value where
  | vUndef : Value
  | vStr : String → Value
  | vNum : ℚ → Value
  | vBool : Bool → Value
  | vArr : List Value → Value
  | vObj : List (String × Value) → Value

/-- A zod issue: the path to the offending location and a message. -/
structure Issue where
  path : List String
  msg : String

mutual
inductive Sch where
  | str : Sch
  | strEmail : Sch
  | strUrl : Sch
  | boolean : Sch
  | numPos : Sch
  | numPosMax : ℚ → Sch
  | enumOf : List String → Sch
  | anySch : Sch
  | arr : Sch → Sch
  | opt : Sch → Sch
  | obj : SchFields → Sch
inductive SchFields where
  | nil : SchFields
  | cons : String → Sch → SchFields → SchFields
end

/-- First-match key lookup in a JavaScript object. -/
def lookupKV (kvs : List (String × Value)) (k : String) : Option Value :=
  (kvs.find? (fun p => p.1 = k)).map (fun p => p.2)

/-- Modelled from the zod library: the `z.string().email()` check
(simplified to: one `'@'`, nonempty local part, nonempty domain containing a
dot).  The claims below do not depend on the exact email grammar. -/
def emailOk (s : String) : Bool :=
  let l := s.data
  let localPart := l.takeWhile (fun c => c ≠ '@')
  let rest := l.dropWhile (fun c => c ≠ '@')
  match rest with
  | '@' :: domain =>
    !localPart.isEmpty && !domain.isEmpty && domain.all (fun c => c ≠ '@') &&
      domain.contains '.'
  | _ => false

/-- Modelled from the zod library: the `z.string().url()` check (simplified
to an http or https scheme).  The claims below do not depend on it. -/
def urlOk (s : String) : Bool :=
  "http://".data.isPrefixOf s.data || "https://".data.isPrefixOf s.data

/-- Attach a path segment in front of every issue of a nested failure. -/
def prefixIssues (k : String) (is : List Issue) : List Issue :=
  is.map (fun i => ⟨k :: i.path, i.msg⟩)

/-- Object output assembly: a field whose parse produced `undefined`
(an absent optional field) is omitted from the parsed object. -/
def addField (k : String) (v : Value) (out : List (String × Value)) :
    List (String × Value) :=
  match v with
  | .vUndef => out
  | _ => (k, v) :: out

/-- Parse every element of an array against the element parser, collecting
all issues with their indices. -/
def parseArrWith (f : Value → Except (List Issue) Value) :
    ℕ → List Value → Except (List Issue) (List Value)
  | _, [] => .ok []
  | i, v :: vs =>
    match f v, parseArrWith f (i + 1) vs with
    | .ok r, .ok rs => .ok (r :: rs)
    | .ok _, .error e2 => .error e2
    | .error e1, .ok _ => .error (prefixIssues (toString i) e1)
    | .error e1, .error e2 => .error (prefixIssues (toString i) e1 ++ e2)

mutual
/-- `schema.safeParse(value)`: `.ok` with the parsed value on success,
`.error` with the (nonempty) issue list on failure. -/
def parseS : Sch → Value → Except (List Issue) Value
  | .str, .vStr s => .ok (.vStr s)
  | .str, .vUndef => .error [⟨[], "Required"⟩]
  | .str, _ => .error [⟨[], "Expected string"⟩]
  | .strEmail, .vStr s =>
    if emailOk s then .ok (.vStr s) else .error [⟨[], "Invalid email"⟩]
  | .strEmail, .vUndef => .error [⟨[], "Required"⟩]
  | .strEmail, _ => .error [⟨[], "Expected string"⟩]
  | .strUrl, .vStr s =>
    if urlOk s then .ok (.vStr s) else .error [⟨[], "Invalid url"⟩]
  | .strUrl, .vUndef => .error [⟨[], "Required"⟩]
  | .strUrl, _ => .error [⟨[], "Expected string"⟩]
  | .boolean, .vBool b => .ok (.vBool b)
  | .boolean, .vUndef => .error [⟨[], "Required"⟩]
  | .boolean, _ => .error [⟨[], "Expected boolean"⟩]
  | .numPos, .vNum q =>
    if 0 < q then .ok (.vNum q)
    else .error [⟨[], "Number must be greater than 0"⟩]
  | .numPos, .vUndef => .error [⟨[], "Required"⟩]
  | .numPos, _ => .error [⟨[], "Expected number"⟩]
  | .numPosMax mx, .vNum q =>
    if 0 < q ∧ q ≤ mx then .ok (.vNum q)
    else .error [⟨[], "Number out of range"⟩]
  | .numPosMax _, .vUndef => .error [⟨[], "Required"⟩]
  | .numPosMax _, _ => .error [⟨[], "Expected number"⟩]
  | .enumOf opts, .vStr s =>
    if s ∈ opts then .ok (.vStr s) else .error [⟨[], "Invalid enum value"⟩]
  | .enumOf _, .vUndef => .error [⟨[], "Required"⟩]
  | .enumOf _, _ => .error [⟨[], "Expected string"⟩]
  | .anySch, v => .ok v
  | .arr s, .vArr xs =>
    match parseArrWith (fun x => parseS s x) 0 xs with
    | .ok rs => .ok (.vArr rs)
    | .error es => .error es
  | .arr _, .vUndef => .error [⟨[], "Required"⟩]
  | .arr _, _ => .error [⟨[], "Expected array"⟩]
  | .opt _, .vUndef => .ok .vUndef
  | .opt s, v => parseS s v
  | .obj fs, .vObj kvs =>
    match parseFields fs kvs with
    | .ok out => .ok (.vObj out)
    | .error es => .error es
  | .obj _, .vUndef => .error [⟨[], "Required"⟩]
  | .obj _, _ => .error [⟨[], "Expected object"⟩]

/-- Parse each declared field of an object schema against the looked-up
value (`undefined` when the key is absent), collecting all issues. -/
def parseFields : SchFields → List (String × Value) →
    Except (List Issue) (List (String × Value))
  | .nil, _ => .ok []
  | .cons k s rest, kvs =>
    match parseS s ((lookupKV kvs k).getD .vUndef), parseFields rest kvs with
    | .ok rv, .ok out => .ok (addField k rv out)
    | .ok _, .error e2 => .error e2
    | .error e1, .ok _ => .error (prefixIssues k e1)
    | .error e1, .error e2 => .error (prefixIssues k e1 ++ e2)
end

/-- `result.error.errors.map(err => path.join(. ) + ": " + err.message).join(", ")`
as built by `validateData`. -/
def joinIssues (is : List Issue) : String :=
  String.intercalate ", "
    (is.map (fun i => String.intercalate "." i.path ++ ": " ++ i.msg))

/-- The message head of the thrown `Error`: the caller-supplied message with
a colon, or `Validation failed: `. -/
def errPrefix (errorMessage : Option String) : String :=
  match errorMessage with
  | some m => m ++ ": "
  | none => "Validation failed: "

/-- `validateData(schema, data, errorMessage?)` from the validation module:
returns `result.data` on success, otherwise throws an `Error` whose message
is the prefix followed by the joined issue details. -/
def validateData (schema : Sch) (data : Value) (errorMessage : Option String) :
    Except String Value :=
  match parseS schema data with
  | .ok r => .ok r
  | .error es => .error (errPrefix errorMessage ++ joinIssues es)

/-! ### The schemas of `core.ts`, `grouping.ts` and `api.ts` -/

/-- Helper to write object schemas. -/
def fieldsOf : List (String × Sch) → SchFields
  | [] => .nil
  | (k, s) :: rest => .cons k s (fieldsOf rest)

/-- `UserSchema` from `src/types/core.ts`. -/
def UserSchema : Sch :=
  .obj (fieldsOf
    [("id", .str), ("email", .strEmail), ("displayName", .str),
     ("avatarUrl", .opt .strUrl), ("accountId", .str),
     ("timeZone", .opt .str), ("active", .boolean)])

/-- The inline `z.object({id, key, name})` projection of a project. -/
def ProjectRefSchema : Sch :=
  .obj (fieldsOf [("id", .str), ("key", .str), ("name", .str)])

/-- `IssueSchema` from `src/types/core.ts`. -/
def IssueSchema : Sch :=
  .obj (fieldsOf
    [("id", .str), ("key", .str), ("summary", .str),
     ("description", .opt .str),
     ("issueType", .obj (fieldsOf
        [("id", .str), ("name", .str), ("iconUrl", .opt .strUrl)])),
     ("status", .obj (fieldsOf
        [("id", .str), ("name", .str),
         ("statusCategory", .obj (fieldsOf
            [("id", .str), ("name", .str), ("colorName", .str)]))])),
     ("priority", .opt (.obj (fieldsOf
        [("id", .str), ("name", .str), ("iconUrl", .opt .strUrl)]))),
     ("assignee", .opt UserSchema), ("reporter", .opt UserSchema),
     ("project", ProjectRefSchema),
     ("created", .str), ("updated", .str)])

/-- `TimesheetEntrySchema` from `src/types/core.ts`: note that
`timeSpentSeconds` and `timeSpentHours` are each `z.number().positive()`,
with no constraint relating them. -/
def TimesheetEntrySchema : Sch :=
  .obj (fieldsOf
    [("id", .str), ("issueId", .str), ("issue", IssueSchema),
     ("author", UserSchema),
     ("timeSpentSeconds", .numPos), ("timeSpentHours", .numPos),
     ("description", .opt .str),
     ("started", .str), ("created", .str), ("updated", .str),
     ("project", ProjectRefSchema), ("worklogId", .str)])

/-- The `GroupingDimension` enum values. -/
def groupingDimensions : List String :=
  ["project", "user", "issueType", "status", "date", "issue"]

/-- `GroupingLevelSchema` from `src/types/grouping.ts`: `dateGroupingType`
is simply `.optional()`, with no cross check against `dimension`. -/
def GroupingLevelSchema : Sch :=
  .obj (fieldsOf
    [("dimension", .enumOf groupingDimensions),
     ("sortBy", .enumOf ["name", "hours", "count", "date"]),
     ("sortOrder", .enumOf ["asc", "desc"]),
     ("dateGroupingType", .opt (.enumOf ["day", "week", "month", "quarter", "year"])),
     ("expanded", .boolean)])

/-- `GroupingConfigSchema` from `src/types/grouping.ts`. -/
def GroupingConfigSchema : Sch :=
  .obj (fieldsOf
    [("levels", .arr GroupingLevelSchema),
     ("showSubtotals", .boolean), ("showGrandTotal", .boolean),
     ("collapseEmptyGroups", .boolean)])

/-- `TimesheetsRequestSchema` from `src/types/api.ts`: `filters` and
`grouping` are `z.any()`; `page` is `z.number().positive().optional()`;
`limit` is `z.number().positive().max(1000).optional()`. -/
def TimesheetsRequestSchema : Sch :=
  .obj (fieldsOf
    [("filters", .anySch), ("grouping", .anySch),
     ("page", .opt .numPos), ("limit", .opt (.numPosMax 1000)),
     ("includeIssueDetails", .opt .boolean)])

/-- `isGroupingConfig`: `GroupingConfigSchema.safeParse(obj).success`. -/
def isGroupingConfig (obj : Value) : Bool :=
  (parseS GroupingConfigSchema obj).isOk

/-- `isTimesheetEntry`: `TimesheetEntrySchema.safeParse(obj).success`. -/
def isTimesheetEntry (obj : Value) : Bool :=
  (parseS TimesheetEntrySchema obj).isOk

/-- `isTimesheetsRequest`: `TimesheetsRequestSchema.safeParse(obj).success`. -/
def isTimesheetsRequest (obj : Value) : Bool :=
  (parseS TimesheetsRequestSchema obj).isOk

/-- `validateGroupingConfig` from the validation module. -/
def validateGroupingConfig (data : Value) : Except String Value :=
  validateData GroupingConfigSchema data (some "Invalid grouping configuration")

/-- `validateTimesheetEntry` from the validation module. -/
def validateTimesheetEntry (data : Value) : Except String Value :=
  validateData TimesheetEntrySchema data (some "Invalid timesheet entry")

/-! ## The grouping data model and the group tree builder

`GroupingLevel`, `GroupingConfig` and `GroupNode` are the data shapes of
`src/types/grouping.ts`.  The builder itself is not part of this repository
slice; it is modelled from specification section 4.1. -/

inductive GroupingDimension where
  | project | user | issueType | status | date | issue
deriving DecidableEq

inductive DateGroupingType where
  | day | week | month | quarter | year
deriving DecidableEq

inductive SortOrder where
  | asc | desc
deriving DecidableEq

inductive SortBy where
  | name | hours | count | date
deriving DecidableEq

/-- `GroupingLevel` from `src/types/grouping.ts` (`dateGroupingType` is only
used when the dimension is `date`). -/
structure GroupingLevel where
  dimension : GroupingDimension
  sortBy : SortBy
  sortOrder : SortOrder
  dateGroupingType : Option DateGroupingType
  expanded : Bool

/-- `GroupingConfig` from `src/types/grouping.ts`. -/
structure GroupingConfig where
  levels : List GroupingLevel
  showSubtotals : Bool
  showGrandTotal : Bool
  collapseEmptyGroups : Bool

/-- The `metadata` attachment of a `GroupNode`. -/
structure GroupMeta where
  projectKey : Option String
  userId : Option String
  issueTypeId : Option String
  statusId : Option String
  issueId : Option String
  dateRange : Option (String × String)

/-- `GroupNode` from `src/types/grouping.ts`: id, dimension, grouping value,
display label, zero-based depth, the two aggregates, ordered children,
directly owned entry ids, UI flag, and dimension metadata. -/
inductive GroupNode where
  | mk (id : String) (dimension : GroupingDimension) (value : String)
      (displayName : String) (level : ℕ) (totalHours : ℚ) (entryCount : ℕ)
      (children : List GroupNode) (entries : List String) (isExpanded : Bool)
      (metadata : Option GroupMeta)

def GroupNode.id : GroupNode → String
  | .mk i _ _ _ _ _ _ _ _ _ _ => i

def GroupNode.dimension : GroupNode → GroupingDimension
  | .mk _ d _ _ _ _ _ _ _ _ _ => d

def GroupNode.value : GroupNode → String
  | .mk _ _ v _ _ _ _ _ _ _ _ => v

def GroupNode.displayName : GroupNode → String
  | .mk _ _ _ dn _ _ _ _ _ _ _ => dn

def GroupNode.level : GroupNode → ℕ
  | .mk _ _ _ _ lv _ _ _ _ _ _ => lv

def GroupNode.totalHours : GroupNode → ℚ
  | .mk _ _ _ _ _ th _ _ _ _ _ => th

def GroupNode.entryCount : GroupNode → ℕ
  | .mk _ _ _ _ _ _ ec _ _ _ _ => ec

def GroupNode.children : GroupNode → List GroupNode
  | .mk _ _ _ _ _ _ _ cs _ _ _ => cs

def GroupNode.entries : GroupNode → List String
  | .mk _ _ _ _ _ _ _ _ en _ _ => en

def GroupNode.isExpanded : GroupNode → Bool
  | .mk _ _ _ _ _ _ _ _ _ ex _ => ex

def GroupNode.metadata : GroupNode → Option GroupMeta
  | .mk _ _ _ _ _ _ _ _ _ _ md => md

/-! ### Date buckets (proleptic Gregorian, via Julian day numbers) -/

/-- A calendar date. -/
structure CivDate where
  year : ℕ
  month : ℕ
  day : ℕ

/-- Julian day number of a Gregorian date (valid for CE years). -/
def jdn (dt : CivDate) : ℕ :=
  let a := (14 - dt.month) / 12
  let y := dt.year + 4800 - a
  let m := dt.month + 12 * a - 3
  dt.day + (153 * m + 2) / 5 + 365 * y + y / 4 - y / 100 + y / 400 - 32045

/-- Gregorian date of a Julian day number. -/
def fromJdn (j : ℕ) : CivDate :=
  let a := j + 32044
  let b := (4 * a + 3) / 146097
  let c := a - 146097 * b / 4
  let d := (4 * c + 3) / 1461
  let e := c - 1461 * d / 4
  let m := (5 * e + 2) / 153
  ⟨100 * b + d - 4800 + m / 10, m + 3 - 12 * (m / 10), e - (153 * m + 2) / 5 + 1⟩

def natStr (n : ℕ) : String := String.mk (digitsOf n)

def pad2 (n : ℕ) : String := if n < 10 then "0" ++ natStr n else natStr n

def dateISO (dt : CivDate) : String :=
  natStr dt.year ++ "-" ++ pad2 dt.month ++ "-" ++ pad2 dt.day

/-- A timesheet entry as seen by the builder (the fields of
`TimesheetEntry` that grouping reads; `author` may be absent to exercise
the default-bucket policy of the specification). -/
structure TSEntry where
  id : String
  issueId : String
  issueKey : String
  issueTypeId : String
  issueTypeName : String
  statusId : String
  statusName : String
  authorId : Option String
  authorName : Option String
  projectId : String
  projectKey : String
  projectName : String
  timeSpentSeconds : ℕ
  timeSpentHours : ℚ
  started : CivDate

/-- Modelled from the spec: the `date` dimension truncates the entry date to
the level's bucket — day: the date itself; week: the ISO week start
(Monday); month: the month; quarter: the quarter; year: the year. -/
def dateBucketValue (g : DateGroupingType) (dt : CivDate) : String :=
  match g with
  | .day => dateISO dt
  | .week => dateISO (fromJdn (jdn dt - jdn dt % 7))
  | .month => natStr dt.year ++ "-" ++ pad2 dt.month
  | .quarter => natStr dt.year ++ "-Q" ++ natStr ((dt.month - 1) / 3 + 1)
  | .year => natStr dt.year

/-- Modelled from the spec: the grouping key of an entry at one level —
project id, author id, issue type id, status id, issue id, or the date
bucket; a missing author falls into the designated Unassigned bucket. -/
def keyOf (l : GroupingLevel) (e : TSEntry) : String :=
  match l.dimension with
  | .project => e.projectId
  | .user => e.authorId.getD "unassigned"
  | .issueType => e.issueTypeId
  | .status => e.statusId
  | .issue => e.issueId
  | .date => dateBucketValue (l.dateGroupingType.getD .day) e.started

/-- Modelled from the spec: the display label of a bucket, derived once from
the first entry observed with that key. -/
def displayOf (l : GroupingLevel) (first : Option TSEntry) (k : String) : String :=
  match l.dimension with
  | .project => (first.map (fun e => e.projectName)).getD k
  | .user => (first.bind (fun e => e.authorName)).getD "Unassigned"
  | .issueType => (first.map (fun e => e.issueTypeName)).getD k
  | .status => (first.map (fun e => e.statusName)).getD k
  | .issue => (first.map (fun e => e.issueKey)).getD k
  | .date => k

/-- Modelled from the spec: dimension-specific metadata, derived once from
the first entry observed with that key. -/
def metaOf (l : GroupingLevel) (first : Option TSEntry) (k : String) :
    Option GroupMeta :=
  match l.dimension with
  | .project => some ⟨first.map (fun e => e.projectKey), none, none, none, none, none⟩
  | .user => some ⟨none, some k, none, none, none, none⟩
  | .issueType => some ⟨none, none, some k, none, none, none⟩
  | .status => some ⟨none, none, none, some k, none, none⟩
  | .issue => some ⟨none, none, none, none, some k, none⟩
  | .date => some ⟨none, none, none, none, none, some (k, k)⟩

/-- The distinct keys of a list, in order of first appearance. -/
def dedupFirst (ks : List String) : List String :=
  ks.foldl (fun acc k => if k ∈ acc then acc else acc ++ [k]) []

/-- Three-way comparison on ℚ. -/
def cmpQ (a b : ℚ) : Ordering :=
  if a < b then .lt else if b < a then .gt else .eq

/-- Modelled from the spec: the sibling order of one level — primary key per
`sortBy` (name: display label; hours/count: the aggregate; date: the bucket
value), flipped when descending, ties broken by the grouping value. -/
def nodeLe (l : GroupingLevel) (a b : GroupNode) : Bool :=
  let primary : Ordering :=
    match l.sortBy with
    | .name => compare a.displayName b.displayName
    | .hours => cmpQ a.totalHours b.totalHours
    | .count => compare a.entryCount b.entryCount
    | .date => compare a.value b.value
  let oriented : Ordering :=
    match l.sortOrder with
    | .asc => primary
    | .desc =>
      match primary with
      | .lt => .gt
      | .eq => .eq
      | .gt => .lt
  match oriented with
  | .lt => true
  | .gt => false
  | .eq => compare a.value b.value ≠ .gt

/-- Stable sort of a sibling list by one level's sort settings. -/
def sortSiblings (l : GroupingLevel) (ns : List GroupNode) : List GroupNode :=
  List.insertionSort (fun a b => nodeLe l a b = true) ns

mutual
/-- Modelled from the spec (section 4.1, steps 1-4): recursively partition
the entry list by each level's key; a bucket becomes a sibling node whose
children come from the next level; at the last level the bucket's entries
become the node's direct entries; aggregates are computed bottom-up;
siblings are sorted per level. -/
def buildForest : List GroupingLevel → ℕ → String → List TSEntry → List GroupNode
  | [], _, _, _ => []
  | l :: rest, depth, parentId, es =>
    sortSiblings l
      ((dedupFirst (es.map (keyOf l))).map (buildNode l rest depth parentId es))
termination_by levels _ _ _ => 2 * levels.length + 1

/-- Modelled from the spec: the sibling node of one bucket — its key, the
display label and metadata from the first entry of the bucket, children from
the next level over the bucket, direct entries exactly at the last level,
and bottom-up aggregates (children totals plus direct entries). -/
def buildNode (l : GroupingLevel) (rest : List GroupingLevel) (depth : ℕ)
    (parentId : String) (es : List TSEntry) (k : String) : GroupNode :=
  GroupNode.mk (parentId ++ "/" ++ k) l.dimension k
    (displayOf l (es.filter (fun e => keyOf l e = k)).head? k) depth
    (((buildForest rest (depth + 1) (parentId ++ "/" ++ k)
          (es.filter (fun e => keyOf l e = k))).map GroupNode.totalHours).sum +
      (if rest.isEmpty
        then ((es.filter (fun e => keyOf l e = k)).map TSEntry.timeSpentHours).sum
        else 0))
    (((buildForest rest (depth + 1) (parentId ++ "/" ++ k)
          (es.filter (fun e => keyOf l e = k))).map GroupNode.entryCount).sum +
      (if rest.isEmpty
        then (es.filter (fun e => keyOf l e = k)).map TSEntry.id
        else []).length)
    (buildForest rest (depth + 1) (parentId ++ "/" ++ k)
      (es.filter (fun e => keyOf l e = k)))
    (if rest.isEmpty then (es.filter (fun e => keyOf l e = k)).map TSEntry.id else [])
    l.expanded
    (metaOf l (es.filter (fun e => keyOf l e = k)).head? k)
termination_by 2 * rest.length + 2
end

/-- Modelled from the spec: the single synthetic root produced when the
levels list is empty — it owns every entry directly. -/
def allRootNode (es : List TSEntry) : GroupNode :=
  GroupNode.mk "root" .project "all" "All Entries" 0
    ((es.map (fun e => e.timeSpentHours)).sum) es.length []
    (es.map (fun e => e.id)) true none

mutual
/-- Modelled from the spec (section 4.1, step 5): with `collapseEmptyGroups`
a node with zero `entryCount` is pruned, recursively. -/
def pruneNode : GroupNode → Option GroupNode
  | .mk i d v dn lv th ec cs en ex md =>
    if ec = 0 then none
    else some (GroupNode.mk i d v dn lv th ec (pruneForest cs) en ex md)

def pruneForest : List GroupNode → List GroupNode
  | [] => []
  | n :: ns =>
    match pruneNode n with
    | some m => m :: pruneForest ns
    | none => pruneForest ns
end

/-- Modelled from the spec: the group tree builder — an ordered entry
sequence and a validated config produce a forest of `GroupNode`; an empty
levels list yields the synthetic root (which collapsing never removes). -/
def buildGroupTree (cfg : GroupingConfig) (es : List TSEntry) : List GroupNode :=
  if cfg.levels.isEmpty then [allRootNode es]
  else if cfg.collapseEmptyGroups then pruneForest (buildForest cfg.levels 0 "" es)
  else buildForest cfg.levels 0 "" es

/-! ### Subtree measures -/

/-- The hours of the entry with a given id (ids are unique in the input). -/
def hoursOf (es : List TSEntry) (eid : String) : ℚ :=
  ((es.find? (fun e => e.id = eid)).map (fun e => e.timeSpentHours)).getD 0

mutual
/-- Sum of `timeSpentHours` over every entry in the node's subtree. -/
def subtreeHours (es : List TSEntry) : GroupNode → ℚ
  | .mk _ _ _ _ _ _ _ cs en _ _ =>
    subtreeHoursL es cs + (en.map (hoursOf es)).sum

def subtreeHoursL (es : List TSEntry) : List GroupNode → ℚ
  | [] => 0
  | n :: ns => subtreeHours es n + subtreeHoursL es ns
end

mutual
/-- Number of entries in the node's subtree. -/
def subtreeCount : GroupNode → ℕ
  | .mk _ _ _ _ _ _ _ cs en _ _ => subtreeCountL cs + en.length

def subtreeCountL : List GroupNode → ℕ
  | [] => 0
  | n :: ns => subtreeCount n + subtreeCountL ns
end

mutual
/-- Every node of a tree, root included. -/
def allNodes : GroupNode → List GroupNode
  | .mk i d v dn lv th ec cs en ex md =>
    GroupNode.mk i d v dn lv th ec cs en ex md :: allNodesL cs

def allNodesL : List GroupNode → List GroupNode
  | [] => []
  | n :: ns => allNodes n ++ allNodesL ns
end

/-- The aggregate invariant of one node: `totalHours` is the exact subtree
hour sum and `entryCount` the exact subtree entry count. -/
def AggOk (es : List TSEntry) (n : GroupNode) : Prop :=
  n.totalHours = subtreeHours es n ∧ n.entryCount = subtreeCount n

/-- The aggregate invariant for every node of a forest. -/
def ForestAggOk (es : List TSEntry) (f : List GroupNode) : Prop :=
  ∀ n ∈ allNodesL f, AggOk es n

/-- The no-consecutive-underscores relation (used to state that
`sanitizeFileName` output never has `__`). -/
def noDoubleUnd (a b : Char) : Prop := ¬(a = '_' ∧ b = '_')

/-! ## Concrete values used by the claims -/

/-- A `User` payload accepted by `UserSchema`. -/
def userKvs : List (String × Value) :=
  [("id", .vStr "u1"), ("email", .vStr "ann@example.com"),
   ("displayName", .vStr "Ann"), ("accountId", .vStr "acc-1"),
   ("active", .vBool true)]

/-- An `Issue` payload accepted by `IssueSchema`. -/
def issueKvs : List (String × Value) :=
  [("id", .vStr "i1"), ("key", .vStr "PRJ-1"), ("summary", .vStr "Fix bug"),
   ("issueType", .vObj [("id", .vStr "t1"), ("name", .vStr "Bug")]),
   ("status", .vObj
     [("id", .vStr "s1"), ("name", .vStr "Open"),
      ("statusCategory", .vObj
        [("id", .vStr "c1"), ("name", .vStr "To Do"),
         ("colorName", .vStr "blue")])]),
   ("project", .vObj
     [("id", .vStr "p1"), ("key", .vStr "PRJ"), ("name", .vStr "Project One")]),
   ("created", .vStr "2024-01-01T00:00:00Z"),
   ("updated", .vStr "2024-01-02T00:00:00Z")]

/-- A `TimesheetEntry` payload whose `timeSpentHours` (2) disagrees with
`timeSpentSeconds / 3600` (1). -/
def badEntryKvs : List (String × Value) :=
  [("id", .vStr "w1"), ("issueId", .vStr "i1"), ("issue", .vObj issueKvs),
   ("author", .vObj userKvs),
   ("timeSpentSeconds", .vNum 3600), ("timeSpentHours", .vNum 2),
   ("started", .vStr "2024-01-15"),
   ("created", .vStr "2024-01-15T10:00:00Z"),
   ("updated", .vStr "2024-01-15T10:00:00Z"),
   ("project", .vObj
     [("id", .vStr "p1"), ("key", .vStr "PRJ"), ("name", .vStr "Project One")]),
   ("worklogId", .vStr "wl-1")]

/-- A `GroupingLevel` payload with `dateGroupingType` set although the
dimension is `project`, not `date`. -/
def levelNonDateWithTypeKvs : List (String × Value) :=
  [("dimension", .vStr "project"), ("sortBy", .vStr "name"),
   ("sortOrder", .vStr "asc"), ("dateGroupingType", .vStr "month"),
   ("expanded", .vBool true)]

/-- A `GroupingConfig` payload containing `levelNonDateWithTypeKvs`. -/
def cfgNonDateWithTypeKvs : List (String × Value) :=
  [("levels", .vArr [.vObj levelNonDateWithTypeKvs]),
   ("showSubtotals", .vBool true), ("showGrandTotal", .vBool true),
   ("collapseEmptyGroups", .vBool false)]

/-- A `GroupingLevel` payload with dimension `date` but no
`dateGroupingType`. -/
def levelDateNoTypeKvs : List (String × Value) :=
  [("dimension", .vStr "date"), ("sortBy", .vStr "date"),
   ("sortOrder", .vStr "desc"), ("expanded", .vBool false)]

/-- A `GroupingConfig` payload containing `levelDateNoTypeKvs`. -/
def cfgDateNoTypeKvs : List (String × Value) :=
  [("levels", .vArr [.vObj levelDateNoTypeKvs]),
   ("showSubtotals", .vBool false), ("showGrandTotal", .vBool true),
   ("collapseEmptyGroups", .vBool true)]

/-- A well-formed `GroupingConfig` payload with one `project` level. -/
def goodCfgKvs : List (String × Value) :=
  [("levels", .vArr [.vObj
     [("dimension", .vStr "project"), ("sortBy", .vStr "name"),
      ("sortOrder", .vStr "asc"), ("expanded", .vBool true)]]),
   ("showSubtotals", .vBool true), ("showGrandTotal", .vBool true),
   ("collapseEmptyGroups", .vBool true)]

/-- A `GroupingConfig` payload whose `levels` list is empty. -/
def emptyLevelsKvs : List (String × Value) :=
  [("levels", .vArr []), ("showSubtotals", .vBool true),
   ("showGrandTotal", .vBool false), ("collapseEmptyGroups", .vBool true)]

/-- A `TimesheetsRequest` payload whose `filters` and `grouping` are not a
`FilterState` or a `GroupingConfig` at all. -/
def garbageRequestKvs : List (String × Value) :=
  [("filters", .vStr "not a FilterState"), ("grouping", .vNum 7),
   ("page", .vNum 2), ("limit", .vNum 1000)]

/-- Two builder entries with distinct ids, for the aggregate witness. -/
def entryW1 : TSEntry :=
  ⟨"e1", "i1", "PRJ-1", "t1", "Bug", "s1", "Open", some "u1", some "Ann",
   "p1", "PRJ", "Project One", 3600, 1, ⟨2024, 1, 15⟩⟩

def entryW2 : TSEntry :=
  ⟨"e2", "i2", "PRJ-2", "t2", "Task", "s2", "Done", none, none,
   "p2", "ALT", "Project Two", 5400, 3 / 2, ⟨2024, 2, 3⟩⟩

def esW : List TSEntry := [entryW1, entryW2]

def cfgW : GroupingConfig :=
  ⟨[⟨.project, .name, .asc, none, true⟩], true, true, true⟩

/-! ### Numeral lemmas -/

theorem digitChar_isDigit {d : ℕ} (hd : d < 10) : (digitChar d).isDigit = true := by
  interval_cases d <;> decide

theorem digitChar_toNat {d : ℕ} (hd : d < 10) : (digitChar d).toNat - 48 = d := by
  interval_cases d <;> decide

theorem digitsOf_ne_nil (n : ℕ) : digitsOf n ≠ [] := by
  unfold digitsOf
  split
  · simp
  · simp [Nat.digits_ne_nil_iff_ne_zero, *]

theorem digitsOf_all_digit (n : ℕ) : ∀ c ∈ digitsOf n, c.isDigit = true := by
  intro c hc
  unfold digitsOf at hc
  split at hc
  · simp at hc
    subst hc; decide
  · simp only [List.mem_map, List.mem_reverse] at hc
    obtain ⟨d, hd, rfl⟩ := hc
    exact digitChar_isDigit (Nat.digits_lt_base (by norm_num) hd)

theorem foldl_decimal (L : List ℕ) (a : ℕ) :
    L.reverse.foldl (fun x d => 10 * x + d) a = a * 10 ^ L.length + Nat.ofDigits 10 L := by
  induction L generalizing a with
  | nil => simp [Nat.ofDigits]
  | cons d L ih =>
    simp only [List.reverse_cons, List.foldl_append, List.foldl_cons, List.foldl_nil,
      ih, List.length_cons, Nat.ofDigits_cons]
    ring

theorem parseDigits_digitsOf (n : ℕ) : parseDigits (digitsOf n) = n := by
  unfold parseDigits digitsOf
  split
  · subst n; decide
  · rw [List.foldl_map]
    have hcong : (Nat.digits 10 n).reverse.foldl
        (fun (a : ℕ) (d : ℕ) => 10 * a + ((digitChar d).toNat - 48)) 0 =
        (Nat.digits 10 n).reverse.foldl (fun (a : ℕ) (d : ℕ) => 10 * a + d) 0 := by
      have : ∀ (L : List ℕ), (∀ d ∈ L, d < 10) → ∀ a : ℕ,
          L.foldl (fun (x : ℕ) (d : ℕ) => 10 * x + ((digitChar d).toNat - 48)) a =
          L.foldl (fun (x : ℕ) (d : ℕ) => 10 * x + d) a := by
        intro L
        induction L with
        | nil => intro _ a; rfl
        | cons d L ih =>
          intro hall a
          simp only [List.foldl_cons]
          rw [digitChar_toNat (hall d (by simp))]
          exact ih (fun x hx => hall x (by simp [hx])) _
      exact this _ (fun d hd => Nat.digits_lt_base (by norm_num) (List.mem_reverse.mp hd)) 0
    rw [hcong, foldl_decimal, Nat.ofDigits_digits]
    simp

/-! ### Scanner lemmas -/

theorem findNumAux_digitRun (t : Char) (D : List Char) (hD : ∀ c ∈ D, c.isDigit = true) :
    ∀ (r : ℕ) (rest : List Char),
      findNumAux t (some r) (D ++ rest) =
        findNumAux t (some (D.foldl (fun a c => 10 * a + (c.toNat - 48)) r)) rest := by
  induction D with
  | nil => intro r rest; rfl
  | cons c D ih =>
    intro r rest
    have hc : c.isDigit = true := hD c (by simp)
    simp only [List.cons_append, findNumAux, hc, if_pos, Option.getD_some, List.foldl_cons,
      List.append_eq]
    exact ih (fun x hx => hD x (by simp [hx])) _ rest

theorem findNum_component_hit (t : Char) (n : ℕ) (rest : List Char)
    (ht : t.isDigit = false) :
    findNumAux t none (digitsOf n ++ t :: rest) = some n := by
  obtain ⟨c, D, hD⟩ : ∃ c D, digitsOf n = c :: D := by
    cases h : digitsOf n with
    | nil => exact absurd h (digitsOf_ne_nil n)
    | cons c D => exact ⟨c, D, rfl⟩
  have hall := digitsOf_all_digit n
  rw [hD] at hall ⊢
  have hc : c.isDigit = true := hall c (by simp)
  simp only [List.cons_append, findNumAux, hc, if_pos, Option.getD_none, List.append_eq]
  rw [findNumAux_digitRun t D (fun x hx => hall x (by simp [hx]))]
  have hval : D.foldl (fun a c => 10 * a + (c.toNat - 48)) (10 * 0 + (c.toNat - 48)) =
      parseDigits (digitsOf n) := by
    rw [hD]; rfl
  rw [hval, parseDigits_digitsOf]
  simp [findNumAux, ht]

theorem findNum_component_skip (t : Char) (n : ℕ) (c : Char) (rest : List Char)
    (hc : c.isDigit = false) (hne : c ≠ t) :
    findNumAux t none (digitsOf n ++ c :: rest) = findNumAux t none rest := by
  obtain ⟨c0, D, hD⟩ : ∃ c0 D, digitsOf n = c0 :: D := by
    cases h : digitsOf n with
    | nil => exact absurd h (digitsOf_ne_nil n)
    | cons c0 D => exact ⟨c0, D, rfl⟩
  have hall := digitsOf_all_digit n
  rw [hD] at hall ⊢
  have hc0 : c0.isDigit = true := hall c0 (by simp)
  simp only [List.cons_append, findNumAux, hc0, if_pos, Option.getD_none, List.append_eq]
  rw [findNumAux_digitRun t D (fun x hx => hall x (by simp [hx]))]
  simp [findNumAux, hc, hne]

theorem findNumAux_skip_char (t : Char) (c : Char) (rest : List Char)
    (hc : c.isDigit = false) (hne : c ≠ t) :
    findNumAux t none (c :: rest) = findNumAux t none rest := by
  simp [findNumAux, hc, hne]

theorem findNum_hit (t : Char) (n : ℕ) (rest : List Char) (ht : t.isDigit = false) :
    findNum t (digitsOf n ++ t :: rest) = some n :=
  findNum_component_hit t n rest ht

theorem findNum_skip (t : Char) (n : ℕ) (c : Char) (rest : List Char)
    (hc : c.isDigit = false) (hne : c ≠ t) :
    findNum t (digitsOf n ++ c :: rest) = findNum t rest :=
  findNum_component_skip t n c rest hc hne

theorem findNum_space (t : Char) (c : Char) (rest : List Char)
    (hc : c.isDigit = false) (hne : c ≠ t) :
    findNum t (c :: rest) = findNum t rest :=
  findNumAux_skip_char t c rest hc hne

theorem findNum_nil (t : Char) : findNum t [] = none := rfl

/-! ### `parseJiraTimeSpent` on component strings -/

theorem parseJira_on_components (d h m : Option ℕ) :
    parseJiraTimeSpent (jiraTimeString d h m) =
      ((d.getD 0 : ℕ) : ℚ) * 8 + ((h.getD 0 : ℕ) : ℚ) + ((m.getD 0 : ℕ) : ℚ) / 60 := by
  rcases d with _ | N <;> rcases h with _ | M <;> rcases m with _ | K
  · simp [jiraTimeString, joinSp, parseJiraTimeSpent, findNum_nil]
  · have hs : jiraTimeString none none (some K) = digitsOf K ++ 'm' :: [] := by
      simp [jiraTimeString, joinSp]
    simp only [parseJiraTimeSpent, hs]
    rw [findNum_skip _ _ _ _ (by decide) (by decide), findNum_nil,
      findNum_skip _ _ _ _ (by decide) (by decide), findNum_nil,
      findNum_hit _ _ _ (by decide)]
  · have hs : jiraTimeString none (some M) none = digitsOf M ++ 'h' :: [] := by
      simp [jiraTimeString, joinSp]
    simp only [parseJiraTimeSpent, hs]
    rw [findNum_skip 'd' _ _ _ (by decide) (by decide), findNum_nil,
      findNum_hit _ _ _ (by decide),
      findNum_skip 'm' _ _ _ (by decide) (by decide), findNum_nil]
  · have hs : jiraTimeString none (some M) (some K) =
        digitsOf M ++ 'h' :: ' ' :: (digitsOf K ++ 'm' :: []) := by
      simp [jiraTimeString, joinSp]
    simp only [parseJiraTimeSpent, hs]
    rw [findNum_skip 'd' _ _ _ (by decide) (by decide),
      findNum_space 'd' _ _ (by decide) (by decide),
      findNum_skip 'd' _ _ _ (by decide) (by decide), findNum_nil,
      findNum_hit 'h' _ _ (by decide),
      findNum_skip 'm' _ _ _ (by decide) (by decide),
      findNum_space 'm' _ _ (by decide) (by decide),
      findNum_hit 'm' _ _ (by decide)]
  · have hs : jiraTimeString (some N) none none = digitsOf N ++ 'd' :: [] := by
      simp [jiraTimeString, joinSp]
    simp only [parseJiraTimeSpent, hs]
    rw [findNum_hit 'd' _ _ (by decide),
      findNum_skip 'h' _ _ _ (by decide) (by decide), findNum_nil,
      findNum_skip 'm' _ _ _ (by decide) (by decide), findNum_nil]
  · have hs : jiraTimeString (some N) none (some K) =
        digitsOf N ++ 'd' :: ' ' :: (digitsOf K ++ 'm' :: []) := by
      simp [jiraTimeString, joinSp]
    simp only [parseJiraTimeSpent, hs]
    rw [findNum_hit 'd' _ _ (by decide),
      findNum_skip 'h' _ _ _ (by decide) (by decide),
      findNum_space 'h' _ _ (by decide) (by decide),
      findNum_skip 'h' _ _ _ (by decide) (by decide), findNum_nil,
      findNum_skip 'm' _ _ _ (by decide) (by decide),
      findNum_space 'm' _ _ (by decide) (by decide),
      findNum_hit 'm' _ _ (by decide)]
  · have hs : jiraTimeString (some N) (some M) none =
        digitsOf N ++ 'd' :: ' ' :: (digitsOf M ++ 'h' :: []) := by
      simp [jiraTimeString, joinSp]
    simp only [parseJiraTimeSpent, hs]
    rw [findNum_hit 'd' _ _ (by decide),
      findNum_skip 'h' _ _ _ (by decide) (by decide),
      findNum_space 'h' _ _ (by decide) (by decide),
      findNum_hit 'h' _ _ (by decide),
      findNum_skip 'm' _ _ _ (by decide) (by decide),
      findNum_space 'm' _ _ (by decide) (by decide),
      findNum_skip 'm' _ _ _ (by decide) (by decide), findNum_nil]
  · have hs : jiraTimeString (some N) (some M) (some K) =
        digitsOf N ++ 'd' :: ' ' :: (digitsOf M ++ 'h' :: ' ' :: (digitsOf K ++ 'm' :: [])) := by
      simp [jiraTimeString, joinSp]
    simp only [parseJiraTimeSpent, hs]
    rw [findNum_hit 'd' _ _ (by decide),
      findNum_skip 'h' _ _ _ (by decide) (by decide),
      findNum_space 'h' _ _ (by decide) (by decide),
      findNum_hit 'h' _ _ (by decide),
      findNum_skip 'm' _ _ _ (by decide) (by decide),
      findNum_space 'm' _ _ (by decide) (by decide),
      findNum_skip 'm' _ _ _ (by decide) (by decide),
      findNum_space 'm' _ _ (by decide) (by decide),
      findNum_hit 'm' _ _ (by decide)]

/-! ### `parseJiraTimeSpent` after `formatHoursAsJiraTime` -/

theorem parse_format_eq (h : ℚ) (hh : 0 ≤ h) :
    parseJiraTimeSpent (formatHoursAsJiraTime h) =
      ((⌊h⌋ : ℤ) : ℚ) + ((⌊(h - ((⌊h⌋ : ℤ) : ℚ)) * 60 + 1 / 2⌋ : ℤ) : ℚ) / 60 := by
  have hW : (0 : ℤ) ≤ ⌊h⌋ := Int.floor_nonneg.mpr hh
  have hfrac : (0 : ℚ) ≤ h - ((⌊h⌋ : ℤ) : ℚ) := by
    have := Int.floor_le h
    linarith
  have hM : (0 : ℤ) ≤ ⌊(h - ((⌊h⌋ : ℤ) : ℚ)) * 60 + 1 / 2⌋ := by
    apply Int.floor_nonneg.mpr
    nlinarith
  set W : ℤ := ⌊h⌋ with hWdef
  set M : ℤ := ⌊(h - (W : ℚ)) * 60 + 1 / 2⌋ with hMdef
  have hWc : ((W.toNat : ℕ) : ℚ) = (W : ℚ) := by exact_mod_cast Int.toNat_of_nonneg hW
  have hMc : ((M.toNat : ℕ) : ℚ) = (M : ℚ) := by exact_mod_cast Int.toNat_of_nonneg hM
  by_cases h0 : W = 0 ∧ M = 0
  · have hfmt : formatHoursAsJiraTime h = ['0', 'm'] := by
      rw [formatHoursAsJiraTime, ← hWdef, ← hMdef]
      simp [h0.1, h0.2]
    have h0s : (['0', 'm'] : List Char) = digitsOf 0 ++ 'm' :: [] := by rfl
    rw [hfmt, h0.1, h0.2]
    simp only [parseJiraTimeSpent, h0s]
    rw [findNum_skip 'd' _ _ _ (by decide) (by decide), findNum_nil,
      findNum_skip 'h' _ _ _ (by decide) (by decide), findNum_nil,
      findNum_hit 'm' _ _ (by decide)]
    norm_num
  · rcases eq_or_lt_of_le hW with hWzero | hWpos
    · have hMpos : 0 < M := by
        rcases eq_or_lt_of_le hM with hMzero | hMpos
        · exact absurd ⟨hWzero.symm, hMzero.symm⟩ h0
        · exact hMpos
      have hfmt : formatHoursAsJiraTime h = digitsOf M.toNat ++ 'm' :: [] := by
        rw [formatHoursAsJiraTime, ← hWdef, ← hMdef]
        simp [hMpos, hMpos.ne', ← hWzero, joinSp]
      rw [hfmt]
      simp only [parseJiraTimeSpent]
      rw [findNum_skip 'd' _ _ _ (by decide) (by decide), findNum_nil,
        findNum_skip 'h' _ _ _ (by decide) (by decide), findNum_nil,
        findNum_hit 'm' _ _ (by decide)]
      simp only [Option.getD_some, Option.getD_none]
      rw [hMc, ← hWzero]
      norm_num
    · rcases eq_or_lt_of_le hM with hMzero | hMpos
      · have hfmt : formatHoursAsJiraTime h = digitsOf W.toNat ++ 'h' :: [] := by
          rw [formatHoursAsJiraTime, ← hWdef, ← hMdef]
          simp [hWpos, hWpos.ne', ← hMzero, joinSp]
        rw [hfmt]
        simp only [parseJiraTimeSpent]
        rw [findNum_skip 'd' _ _ _ (by decide) (by decide), findNum_nil,
          findNum_hit 'h' _ _ (by decide),
          findNum_skip 'm' _ _ _ (by decide) (by decide), findNum_nil]
        simp only [Option.getD_some, Option.getD_none]
        rw [hWc, ← hMzero]
        norm_num
      · have hfmt : formatHoursAsJiraTime h =
            digitsOf W.toNat ++ 'h' :: ' ' :: (digitsOf M.toNat ++ 'm' :: []) := by
          rw [formatHoursAsJiraTime, ← hWdef, ← hMdef]
          simp [hWpos, hMpos, hWpos.ne', joinSp]
        rw [hfmt]
        simp only [parseJiraTimeSpent]
        rw [findNum_skip 'd' _ _ _ (by decide) (by decide),
          findNum_space 'd' _ _ (by decide) (by decide),
          findNum_skip 'd' _ _ _ (by decide) (by decide), findNum_nil,
          findNum_hit 'h' _ _ (by decide),
          findNum_skip 'm' _ _ _ (by decide) (by decide),
          findNum_space 'm' _ _ (by decide) (by decide),
          findNum_hit 'm' _ _ (by decide)]
        simp only [Option.getD_some, Option.getD_none]
        rw [hWc, hMc]
        ring


/-! ### `sanitizeFileName` lemmas -/

theorem underscoreBad_chars (s : List Char) :
    ∀ c ∈ underscoreBad s, fileNameChar c = true ∨ c = '_' := by
  intro c hc
  simp only [underscoreBad, List.mem_map] at hc
  obtain ⟨x, _, rfl⟩ := hc
  by_cases hx : fileNameChar x
  · left; simp [hx]
  · right; simp [hx]

theorem collapseUnderscores_subset (l : List Char) :
    ∀ c ∈ collapseUnderscores l, c ∈ l := by
  induction l using collapseUnderscores.induct with
  | case1 => simp [collapseUnderscores]
  | case2 c => simp [collapseUnderscores]
  | case3 a b rest hab ih =>
    intro c hc
    simp only [collapseUnderscores, if_pos hab] at hc
    simp [ih c hc]
  | case4 a b rest hab ih =>
    intro c hc
    simp only [collapseUnderscores, if_neg hab] at hc
    rcases List.mem_cons.mp hc with rfl | hc
    · simp
    · simp [ih c hc]

theorem dropLeadUnderscore_subset (l : List Char) :
    ∀ c ∈ dropLeadUnderscore l, c ∈ l := by
  intro c hc
  cases l with
  | nil => simp [dropLeadUnderscore] at hc
  | cons a rest =>
    simp only [dropLeadUnderscore] at hc
    by_cases ha : a = '_'
    · simp only [if_pos ha] at hc; simp [hc]
    · simpa only [if_neg ha] using hc

theorem trimUnderscores_subset (l : List Char) :
    ∀ c ∈ trimUnderscores l, c ∈ l := by
  intro c hc
  simp only [trimUnderscores, List.mem_reverse] at hc
  have h1 := dropLeadUnderscore_subset _ _ hc
  rw [List.mem_reverse] at h1
  exact dropLeadUnderscore_subset _ _ h1

theorem collapseUnderscores_head (b : Char) (rest : List Char) :
    ∃ t, collapseUnderscores (b :: rest) = b :: t := by
  induction rest generalizing b with
  | nil => exact ⟨[], rfl⟩
  | cons c rs ih =>
    by_cases hbc : b = '_' ∧ c = '_'
    · obtain ⟨t, ht⟩ := ih c
      refine ⟨t, ?_⟩
      rw [show collapseUnderscores (b :: c :: rs) = collapseUnderscores (c :: rs) by
        simp [collapseUnderscores, if_pos hbc], ht, hbc.1, hbc.2]
    · exact ⟨collapseUnderscores (c :: rs), by simp [collapseUnderscores, if_neg hbc]⟩

theorem collapseUnderscores_chain (l : List Char) :
    List.Chain' noDoubleUnd (collapseUnderscores l) := by
  induction l using collapseUnderscores.induct with
  | case1 => simp [collapseUnderscores]
  | case2 c => simp [collapseUnderscores]
  | case3 a b rest hab ih =>
    simpa [collapseUnderscores, if_pos hab] using ih
  | case4 a b rest hab ih =>
    obtain ⟨t, ht⟩ := collapseUnderscores_head b rest
    simp only [collapseUnderscores, if_neg hab, ht]
    rw [ht] at ih
    exact List.Chain'.cons hab ih

theorem chain_flip_noDoubleUnd {l : List Char} (h : List.Chain' noDoubleUnd l) :
    List.Chain' (flip noDoubleUnd) l := by
  refine List.Chain'.imp ?_ h
  intro a b hab
  simp only [flip, noDoubleUnd] at hab ⊢
  tauto

theorem chain_reverse_noDoubleUnd {l : List Char} (h : List.Chain' noDoubleUnd l) :
    List.Chain' noDoubleUnd l.reverse := by
  rw [List.chain'_reverse]
  exact chain_flip_noDoubleUnd h

theorem dropLeadUnderscore_chain {l : List Char} (h : List.Chain' noDoubleUnd l) :
    List.Chain' noDoubleUnd (dropLeadUnderscore l) := by
  cases l with
  | nil => simp [dropLeadUnderscore]
  | cons a rest =>
    simp only [dropLeadUnderscore]
    by_cases ha : a = '_'
    · rw [if_pos ha]
      exact h.tail
    · rwa [if_neg ha]

theorem dropLeadUnderscore_head {l : List Char} (h : List.Chain' noDoubleUnd l) :
    (dropLeadUnderscore l).head? ≠ some '_' := by
  cases l with
  | nil => simp [dropLeadUnderscore]
  | cons a rest =>
    simp only [dropLeadUnderscore]
    by_cases ha : a = '_'
    · rw [if_pos ha]
      cases rest with
      | nil => simp
      | cons b rs =>
        have hab : noDoubleUnd a b := (List.chain'_cons.mp h).1
        simp only [noDoubleUnd, ha, true_and] at hab
        simpa using hab
    · rw [if_neg ha]
      simpa using ha

theorem dropLeadUnderscore_getLast {l : List Char} (h : l.getLast? ≠ some '_') :
    (dropLeadUnderscore l).getLast? ≠ some '_' := by
  cases l with
  | nil => simp [dropLeadUnderscore]
  | cons a rest =>
    simp only [dropLeadUnderscore]
    by_cases ha : a = '_'
    · rw [if_pos ha]
      cases rest with
      | nil => simp
      | cons b rs => rwa [List.getLast?_cons_cons] at h
    · rwa [if_neg ha]

theorem trimUnderscores_chain {l : List Char} (h : List.Chain' noDoubleUnd l) :
    List.Chain' noDoubleUnd (trimUnderscores l) := by
  unfold trimUnderscores
  exact chain_reverse_noDoubleUnd
    (dropLeadUnderscore_chain (chain_reverse_noDoubleUnd (dropLeadUnderscore_chain h)))

theorem trimUnderscores_ends {l : List Char} (h : List.Chain' noDoubleUnd l) :
    (trimUnderscores l).head? ≠ some '_' ∧ (trimUnderscores l).getLast? ≠ some '_' := by
  unfold trimUnderscores
  constructor
  · rw [List.head?_reverse]
    apply dropLeadUnderscore_getLast
    rw [List.getLast?_reverse]
    exact dropLeadUnderscore_head h
  · rw [List.getLast?_reverse]
    exact dropLeadUnderscore_head (chain_reverse_noDoubleUnd (dropLeadUnderscore_chain h))

theorem underscoreBad_id : ∀ (l : List Char),
    (∀ c ∈ l, fileNameChar c = true ∨ c = '_') → underscoreBad l = l := by
  intro l
  induction l with
  | nil => intro _; rfl
  | cons a rest ih =>
    intro h
    have hstep : (if fileNameChar a then a else '_') = a := by
      rcases h a (by simp) with ha | ha
      · simp [ha]
      · subst ha; simp
    have hrest : underscoreBad rest = rest := ih (fun c hc => h c (by simp [hc]))
    simp only [underscoreBad, List.map_cons, hstep] at hrest ⊢
    rw [hrest]

theorem collapseUnderscores_id {l : List Char} (h : List.Chain' noDoubleUnd l) :
    collapseUnderscores l = l := by
  induction l using collapseUnderscores.induct with
  | case1 => rfl
  | case2 c => rfl
  | case3 a b rest hab ih =>
    exact absurd hab (List.chain'_cons.mp h).1
  | case4 a b rest hab ih =>
    simp only [collapseUnderscores, if_neg hab]
    rw [ih (List.chain'_cons.mp h).2]

theorem dropLeadUnderscore_id {l : List Char} (h : l.head? ≠ some '_') :
    dropLeadUnderscore l = l := by
  cases l with
  | nil => rfl
  | cons a rest =>
    have ha : a ≠ '_' := by simpa using h
    simp [dropLeadUnderscore, ha]

theorem trimUnderscores_id {l : List Char} (h1 : l.head? ≠ some '_')
    (h2 : l.getLast? ≠ some '_') : trimUnderscores l = l := by
  unfold trimUnderscores
  rw [dropLeadUnderscore_id h1, dropLeadUnderscore_id (by rwa [List.head?_reverse]),
    List.reverse_reverse]

theorem sanitizeFileName_props (s : List Char) :
    (∀ c ∈ sanitizeFileName s, fileNameChar c = true ∨ c = '_') ∧
      List.Chain' noDoubleUnd (sanitizeFileName s) ∧
      (sanitizeFileName s).head? ≠ some '_' ∧
      (sanitizeFileName s).getLast? ≠ some '_' := by
  have hchain := collapseUnderscores_chain (underscoreBad s)
  refine ⟨?_, trimUnderscores_chain hchain,
    (trimUnderscores_ends hchain).1, (trimUnderscores_ends hchain).2⟩
  intro c hc
  exact underscoreBad_chars s c
    (collapseUnderscores_subset _ c (trimUnderscores_subset _ c hc))

theorem sanitizeFileName_idem (s : List Char) :
    sanitizeFileName (sanitizeFileName s) = sanitizeFileName s := by
  obtain ⟨h1, h2, h3, h4⟩ := sanitizeFileName_props s
  show trimUnderscores (collapseUnderscores (underscoreBad (sanitizeFileName s)))
      = sanitizeFileName s
  rw [underscoreBad_id _ h1, collapseUnderscores_id h2, trimUnderscores_id h3 h4]

/-! ### Validation lemmas -/

theorem validateData_isOk (schema : Sch) (data : Value) (em : Option String) :
    (validateData schema data em).isOk = (parseS schema data).isOk := by
  unfold validateData
  cases parseS schema data <;> rfl

theorem validateData_of_ok {schema : Sch} {data : Value} {r : Value}
    (h : parseS schema data = .ok r) (em : Option String) :
    validateData schema data em = .ok r := by
  unfold validateData
  rw [h]

theorem validateData_of_error {schema : Sch} {data : Value} {es : List Issue}
    (h : parseS schema data = .error es) (em : Option String) :
    validateData schema data em = .error (errPrefix em ++ joinIssues es) := by
  unfold validateData
  rw [h]

theorem parseS_obj_ok {fs : SchFields} {v : Value} {r : Value}
    (h : parseS (.obj fs) v = .ok r) :
    ∃ kvs out, v = .vObj kvs ∧ parseFields fs kvs = .ok out ∧ r = .vObj out := by
  cases v with
  | vObj kvs =>
    refine ⟨kvs, ?_⟩
    simp only [parseS] at h
    cases hp : parseFields fs kvs with
    | ok out =>
      rw [hp] at h
      exact ⟨out, rfl, rfl, by injection h with h2; exact h2.symm⟩
    | error es => rw [hp] at h; exact absurd h (by simp)
  | vUndef => exact absurd h (by simp [parseS])
  | vStr s => exact absurd h (by simp [parseS])
  | vNum q => exact absurd h (by simp [parseS])
  | vBool b => exact absurd h (by simp [parseS])
  | vArr xs => exact absurd h (by simp [parseS])

theorem parseFields_cons_ok {k : String} {s : Sch} {rest : SchFields}
    {kvs : List (String × Value)} {out : List (String × Value)}
    (h : parseFields (.cons k s rest) kvs = .ok out) :
    ∃ rv out2, parseS s ((lookupKV kvs k).getD .vUndef) = .ok rv ∧
      parseFields rest kvs = .ok out2 ∧ out = addField k rv out2 := by
  simp only [parseFields] at h
  cases h1 : parseS s ((lookupKV kvs k).getD .vUndef) with
  | ok rv =>
    cases h2 : parseFields rest kvs with
    | ok out2 =>
      rw [h1, h2] at h
      exact ⟨rv, out2, rfl, rfl, by injection h with h3; exact h3.symm⟩
    | error e2 => rw [h1, h2] at h; exact absurd h (by simp)
  | error e1 =>
    cases h2 : parseFields rest kvs with
    | ok out2 => rw [h1, h2] at h; exact absurd h (by simp)
    | error e2 => rw [h1, h2] at h; exact absurd h (by simp)

theorem parseS_opt_ok {s : Sch} {v : Value} {r : Value}
    (h : parseS (.opt s) v = .ok r) :
    v = .vUndef ∨ parseS s v = .ok r := by
  cases v with
  | vUndef => exact Or.inl rfl
  | vStr x => exact Or.inr h
  | vNum x => exact Or.inr h
  | vBool x => exact Or.inr h
  | vArr x => exact Or.inr h
  | vObj x => exact Or.inr h

theorem parseS_numPos_ok {v : Value} {r : Value}
    (h : parseS .numPos v = .ok r) :
    ∃ q : ℚ, v = .vNum q ∧ 0 < q ∧ r = .vNum q := by
  cases v with
  | vNum q =>
    refine ⟨q, rfl, ?_⟩
    simp only [parseS] at h
    by_cases hq : 0 < q
    · rw [if_pos hq] at h
      exact ⟨hq, by injection h with h2; exact h2.symm⟩
    · rw [if_neg hq] at h; exact absurd h (by simp)
  | vUndef => exact absurd h (by simp [parseS])
  | vStr x => exact absurd h (by simp [parseS])
  | vBool x => exact absurd h (by simp [parseS])
  | vArr x => exact absurd h (by simp [parseS])
  | vObj x => exact absurd h (by simp [parseS])

theorem parseS_numPosMax_ok {mx : ℚ} {v : Value} {r : Value}
    (h : parseS (.numPosMax mx) v = .ok r) :
    ∃ q : ℚ, v = .vNum q ∧ 0 < q ∧ q ≤ mx ∧ r = .vNum q := by
  cases v with
  | vNum q =>
    refine ⟨q, rfl, ?_⟩
    simp only [parseS] at h
    by_cases hq : 0 < q ∧ q ≤ mx
    · rw [if_pos hq] at h
      exact ⟨hq.1, hq.2, by injection h with h2; exact h2.symm⟩
    · rw [if_neg hq] at h; exact absurd h (by simp)
  | vUndef => exact absurd h (by simp [parseS])
  | vStr x => exact absurd h (by simp [parseS])
  | vBool x => exact absurd h (by simp [parseS])
  | vArr x => exact absurd h (by simp [parseS])
  | vObj x => exact absurd h (by simp [parseS])

theorem parseS_enum_ok {opts : List String} {v : Value} {r : Value}
    (h : parseS (.enumOf opts) v = .ok r) :
    ∃ s, v = .vStr s ∧ s ∈ opts ∧ r = .vStr s := by
  cases v with
  | vStr s =>
    refine ⟨s, rfl, ?_⟩
    simp only [parseS] at h
    by_cases hs : s ∈ opts
    · rw [if_pos hs] at h
      exact ⟨hs, by injection h with h2; exact h2.symm⟩
    · rw [if_neg hs] at h; exact absurd h (by simp)
  | vUndef => exact absurd h (by simp [parseS])
  | vNum x => exact absurd h (by simp [parseS])
  | vBool x => exact absurd h (by simp [parseS])
  | vArr x => exact absurd h (by simp [parseS])
  | vObj x => exact absurd h (by simp [parseS])

theorem parseS_arr_ok {s : Sch} {v : Value} {r : Value}
    (h : parseS (.arr s) v = .ok r) :
    ∃ xs rs, v = .vArr xs ∧
      parseArrWith (fun x => parseS s x) 0 xs = .ok rs ∧ r = .vArr rs := by
  cases v with
  | vArr xs =>
    refine ⟨xs, ?_⟩
    simp only [parseS] at h
    cases hp : parseArrWith (fun x => parseS s x) 0 xs with
    | ok rs =>
      rw [hp] at h
      exact ⟨rs, rfl, rfl, by injection h with h2; exact h2.symm⟩
    | error es => rw [hp] at h; exact absurd h (by simp)
  | vUndef => exact absurd h (by simp [parseS])
  | vStr x => exact absurd h (by simp [parseS])
  | vNum x => exact absurd h (by simp [parseS])
  | vBool x => exact absurd h (by simp [parseS])
  | vObj x => exact absurd h (by simp [parseS])

theorem parseArrWith_ok_mem {f : Value → Except (List Issue) Value} :
    ∀ {i : ℕ} {xs rs : List Value}, parseArrWith f i xs = .ok rs →
      ∀ x ∈ xs, ∃ rx, f x = .ok rx := by
  intro i xs
  induction xs generalizing i with
  | nil => intro rs _ x hx; exact absurd hx (by simp)
  | cons v vs ih =>
    intro rs h x hx
    simp only [parseArrWith] at h
    cases h1 : f v with
    | ok rv =>
      cases h2 : parseArrWith f (i + 1) vs with
      | ok rvs =>
        rcases List.mem_cons.mp hx with rfl | hx2
        · exact ⟨rv, h1⟩
        · exact ih h2 x hx2
      | error e2 => rw [h1, h2] at h; exact absurd h (by simp)
    | error e1 =>
      cases h2 : parseArrWith f (i + 1) vs with
      | ok rvs => rw [h1, h2] at h; exact absurd h (by simp)
      | error e2 => rw [h1, h2] at h; exact absurd h (by simp)

theorem lookup_getD_eq {kvs : List (String × Value)} {k : String} {w : Value}
    (hw : w ≠ .vUndef) (h : (lookupKV kvs k).getD .vUndef = w) :
    lookupKV kvs k = some w := by
  cases hl : lookupKV kvs k with
  | none => rw [hl] at h; exact absurd h.symm hw
  | some u =>
    rw [hl] at h
    simp only [Option.getD_some] at h
    rw [h]

theorem groupingConfig_ok_dims {kvs : List (String × Value)} {r : Value}
    (h : parseS GroupingConfigSchema (.vObj kvs) = .ok r) :
    ∃ xs, lookupKV kvs "levels" = some (.vArr xs) ∧
      ∀ x ∈ xs, ∃ fk s, x = .vObj fk ∧
        lookupKV fk "dimension" = some (.vStr s) ∧ s ∈ groupingDimensions := by
  simp only [GroupingConfigSchema, fieldsOf] at h
  obtain ⟨kvs2, out, hv, hpf, _⟩ := parseS_obj_ok h
  injection hv with hkv
  subst hkv
  obtain ⟨rv, out1, hlev, _, _⟩ := parseFields_cons_ok hpf
  obtain ⟨xs, rs, hval, hparr, _⟩ := parseS_arr_ok hlev
  refine ⟨xs, lookup_getD_eq (by simp) hval, ?_⟩
  intro x hx
  obtain ⟨rx, hrx⟩ := parseArrWith_ok_mem hparr x hx
  simp only [GroupingLevelSchema, fieldsOf] at hrx
  obtain ⟨fk, fout, hxv, hpf2, _⟩ := parseS_obj_ok hrx
  subst hxv
  obtain ⟨rd, out2, hdim, _, _⟩ := parseFields_cons_ok hpf2
  obtain ⟨s, hsv, hs, _⟩ := parseS_enum_ok hdim
  exact ⟨fk, s, rfl, lookup_getD_eq (by simp) hsv, hs⟩

theorem timesheetEntry_ok_pos {kvs : List (String × Value)} {r : Value}
    (h : parseS TimesheetEntrySchema (.vObj kvs) = .ok r) :
    (∃ q : ℚ, lookupKV kvs "timeSpentSeconds" = some (.vNum q) ∧ 0 < q) ∧
      (∃ q : ℚ, lookupKV kvs "timeSpentHours" = some (.vNum q) ∧ 0 < q) := by
  simp only [TimesheetEntrySchema, fieldsOf] at h
  obtain ⟨kvs2, out, hv, hpf, _⟩ := parseS_obj_ok h
  injection hv with hkv
  subst hkv
  obtain ⟨_, _, _, hpf, _⟩ := parseFields_cons_ok hpf
  obtain ⟨_, _, _, hpf, _⟩ := parseFields_cons_ok hpf
  obtain ⟨_, _, _, hpf, _⟩ := parseFields_cons_ok hpf
  obtain ⟨_, _, _, hpf, _⟩ := parseFields_cons_ok hpf
  obtain ⟨_, _, hsec, hpf, _⟩ := parseFields_cons_ok hpf
  obtain ⟨_, _, hhrs, _, _⟩ := parseFields_cons_ok hpf
  obtain ⟨q1, hq1v, hq1, _⟩ := parseS_numPos_ok hsec
  obtain ⟨q2, hq2v, hq2, _⟩ := parseS_numPos_ok hhrs
  exact ⟨⟨q1, lookup_getD_eq (by simp) hq1v, hq1⟩,
    ⟨q2, lookup_getD_eq (by simp) hq2v, hq2⟩⟩

theorem timesheetsRequest_ok_bounds {kvs : List (String × Value)} {r : Value}
    (h : parseS TimesheetsRequestSchema (.vObj kvs) = .ok r) :
    (∀ u, lookupKV kvs "page" = some u →
        u = .vUndef ∨ ∃ q : ℚ, u = .vNum q ∧ 0 < q) ∧
      (∀ u, lookupKV kvs "limit" = some u →
        u = .vUndef ∨ ∃ q : ℚ, u = .vNum q ∧ 0 < q ∧ q ≤ 1000) := by
  simp only [TimesheetsRequestSchema, fieldsOf] at h
  obtain ⟨kvs2, out, hv, hpf, _⟩ := parseS_obj_ok h
  injection hv with hkv
  subst hkv
  obtain ⟨_, _, _, hpf, _⟩ := parseFields_cons_ok hpf
  obtain ⟨_, _, _, hpf, _⟩ := parseFields_cons_ok hpf
  obtain ⟨_, _, hpage, hpf, _⟩ := parseFields_cons_ok hpf
  obtain ⟨_, _, hlimit, _, _⟩ := parseFields_cons_ok hpf
  constructor
  · intro u hu
    have hval : (lookupKV kvs "page").getD .vUndef = u := by rw [hu]; rfl
    rw [hval] at hpage
    rcases parseS_opt_ok hpage with rfl | hnum
    · exact Or.inl rfl
    · obtain ⟨q, rfl, hq, _⟩ := parseS_numPos_ok hnum
      exact Or.inr ⟨q, rfl, hq⟩
  · intro u hu
    have hval : (lookupKV kvs "limit").getD .vUndef = u := by rw [hu]; rfl
    rw [hval] at hlimit
    rcases parseS_opt_ok hlimit with rfl | hnum
    · exact Or.inl rfl
    · obtain ⟨q, rfl, hq, hqm, _⟩ := parseS_numPosMax_ok hnum
      exact Or.inr ⟨q, rfl, hq, hqm⟩

/-! ### Group tree lemmas -/

theorem allNodes_eq (n : GroupNode) : allNodes n = n :: allNodesL n.children := by
  cases n
  rfl

theorem self_mem_allNodes (n : GroupNode) : n ∈ allNodes n := by
  rw [allNodes_eq]
  exact List.mem_cons_self n _

theorem mem_allNodesL (f : List GroupNode) (n : GroupNode) :
    n ∈ allNodesL f ↔ ∃ t ∈ f, n ∈ allNodes t := by
  induction f with
  | nil => simp [allNodesL]
  | cons t ts ih =>
    show n ∈ allNodes t ++ allNodesL ts ↔ _
    rw [List.mem_append, ih]
    constructor
    · rintro (h | ⟨u, hu, hn⟩)
      · exact ⟨t, by simp, h⟩
      · exact ⟨u, by simp [hu], hn⟩
    · rintro ⟨u, hu, hn⟩
      rcases List.mem_cons.mp hu with rfl | hu2
      · exact Or.inl hn
      · exact Or.inr ⟨u, hu2, hn⟩

mutual
theorem child_mem_allNodes : ∀ (t n : GroupNode), n ∈ allNodes t →
    ∀ c ∈ n.children, c ∈ allNodes t
  | .mk i d v dn lv th ec cs en ex md, n, hn, c, hc => by
    rw [allNodes_eq] at hn ⊢
    rcases List.mem_cons.mp hn with rfl | hn2
    · exact List.mem_cons_of_mem _
        ((mem_allNodesL _ c).mpr ⟨c, hc, self_mem_allNodes c⟩)
    · exact List.mem_cons_of_mem _ (child_mem_allNodesL cs n hn2 c hc)

theorem child_mem_allNodesL : ∀ (f : List GroupNode) (n : GroupNode),
    n ∈ allNodesL f → ∀ c ∈ n.children, c ∈ allNodesL f
  | t :: ts, n, hn, c, hc => by
    show c ∈ allNodes t ++ allNodesL ts
    have hn2 : n ∈ allNodes t ++ allNodesL ts := hn
    rw [List.mem_append] at hn2 ⊢
    rcases hn2 with h | h
    · exact Or.inl (child_mem_allNodes t n h c hc)
    · exact Or.inr (child_mem_allNodesL ts n h c hc)
end

theorem subtreeHoursL_eq_sum (es : List TSEntry) (cs : List GroupNode) :
    subtreeHoursL es cs = (cs.map (subtreeHours es)).sum := by
  induction cs with
  | nil => rfl
  | cons c cs ih => simp only [subtreeHoursL, List.map_cons, List.sum_cons, ih]

theorem subtreeCountL_eq_sum (cs : List GroupNode) :
    subtreeCountL cs = (cs.map subtreeCount).sum := by
  induction cs with
  | nil => rfl
  | cons c cs ih => simp only [subtreeCountL, List.map_cons, List.sum_cons, ih]

theorem subtreeHours_node (es : List TSEntry) (n : GroupNode) :
    subtreeHours es n = subtreeHoursL es n.children + (n.entries.map (hoursOf es)).sum := by
  cases n
  rfl

theorem subtreeCount_node (n : GroupNode) :
    subtreeCount n = subtreeCountL n.children + n.entries.length := by
  cases n
  rfl

theorem find_of_nodup {es : List TSEntry} (hnd : (es.map TSEntry.id).Nodup)
    {e : TSEntry} (he : e ∈ es) :
    es.find? (fun x => x.id = e.id) = some e := by
  induction es with
  | nil => exact absurd he (by simp)
  | cons a rest ih =>
    rw [List.map_cons, List.nodup_cons] at hnd
    rcases List.mem_cons.mp he with rfl | he2
    · simp [List.find?_cons]
    · have hne : ¬(a.id = e.id) := by
        intro hid
        exact hnd.1 (hid ▸ List.mem_map_of_mem TSEntry.id he2)
      rw [List.find?_cons, decide_eq_false hne]
      exact ih hnd.2 he2

theorem hoursOf_of_mem {es : List TSEntry} (hnd : (es.map TSEntry.id).Nodup)
    {e : TSEntry} (he : e ∈ es) : hoursOf es e.id = e.timeSpentHours := by
  unfold hoursOf
  rw [find_of_nodup hnd he]
  rfl

theorem sum_hoursOf_map {es : List TSEntry} (hnd : (es.map TSEntry.id).Nodup) :
    ∀ (b : List TSEntry), (∀ e ∈ b, e ∈ es) →
      ((b.map TSEntry.id).map (hoursOf es)).sum = (b.map TSEntry.timeSpentHours).sum := by
  intro b
  induction b with
  | nil => intro _; rfl
  | cons e rest ih =>
    intro hb
    simp only [List.map_cons, List.sum_cons]
    rw [hoursOf_of_mem hnd (hb e (by simp)), ih (fun x hx => hb x (by simp [hx]))]

theorem aggOk_mk (es0 : List TSEntry) (hnd : (es0.map TSEntry.id).Nodup)
    (bucket : List TSEntry) (hb : ∀ e ∈ bucket, e ∈ es0)
    (cs : List GroupNode) (hcs : ∀ c ∈ cs, AggOk es0 c)
    (i : String) (d : GroupingDimension) (v dn : String) (lv : ℕ) (ex : Bool)
    (md : Option GroupMeta) (direct : List String) (dh : ℚ)
    (hdirect : (direct = bucket.map TSEntry.id ∧
        dh = (bucket.map TSEntry.timeSpentHours).sum) ∨ (direct = [] ∧ dh = 0)) :
    AggOk es0 (GroupNode.mk i d v dn lv
      ((cs.map GroupNode.totalHours).sum + dh)
      ((cs.map GroupNode.entryCount).sum + direct.length) cs direct ex md) := by
  have hsumh : (cs.map GroupNode.totalHours).sum = subtreeHoursL es0 cs := by
    rw [subtreeHoursL_eq_sum]
    exact congrArg List.sum (List.map_congr_left (fun c hc => (hcs c hc).1))
  have hsumc : (cs.map GroupNode.entryCount).sum = subtreeCountL cs := by
    rw [subtreeCountL_eq_sum]
    exact congrArg List.sum (List.map_congr_left (fun c hc => (hcs c hc).2))
  constructor
  · show _ = subtreeHours es0 (GroupNode.mk _ _ _ _ _ _ _ cs direct _ _)
    rw [subtreeHours_node]
    show (cs.map GroupNode.totalHours).sum + dh =
      subtreeHoursL es0 cs + (direct.map (hoursOf es0)).sum
    rw [hsumh]
    rcases hdirect with ⟨rfl, rfl⟩ | ⟨rfl, rfl⟩
    · rw [sum_hoursOf_map hnd bucket hb]
    · simp
  · show _ = subtreeCount (GroupNode.mk _ _ _ _ _ _ _ cs direct _ _)
    rw [subtreeCount_node]
    show (cs.map GroupNode.entryCount).sum + direct.length =
      subtreeCountL cs + direct.length
    rw [hsumc]

theorem mem_sortSiblings (l : GroupingLevel) (ns : List GroupNode) (t : GroupNode) :
    t ∈ sortSiblings l ns ↔ t ∈ ns :=
  List.mem_insertionSort _

theorem buildForest_aggOk (es0 : List TSEntry) (hnd : (es0.map TSEntry.id).Nodup) :
    ∀ (levels : List GroupingLevel) (depth : ℕ) (pid : String)
      (entries : List TSEntry), (∀ e ∈ entries, e ∈ es0) →
      ForestAggOk es0 (buildForest levels depth pid entries) := by
  intro levels
  induction levels with
  | nil =>
    intro depth pid entries _ n hn
    simp only [buildForest] at hn
    simp [allNodesL] at hn
  | cons l rest ih =>
    intro depth pid entries hsub n hn
    simp only [buildForest] at hn
    rw [mem_allNodesL] at hn
    obtain ⟨t, ht, hnt⟩ := hn
    rw [mem_sortSiblings] at ht
    obtain ⟨k, hk, rfl⟩ := List.mem_map.mp ht
    have hbucket : ∀ e ∈ entries.filter (fun e => keyOf l e = k), e ∈ es0 :=
      fun e he => hsub e (List.mem_of_mem_filter he)
    have hch : ForestAggOk es0 (buildForest rest (depth + 1) (pid ++ "/" ++ k)
        (entries.filter (fun e => keyOf l e = k))) :=
      ih (depth + 1) (pid ++ "/" ++ k) _ hbucket
    have hchildren : (buildNode l rest depth pid entries k).children =
        buildForest rest (depth + 1) (pid ++ "/" ++ k)
          (entries.filter (fun e => keyOf l e = k)) := by
      simp only [buildNode, GroupNode.children]
    rw [allNodes_eq] at hnt
    rcases List.mem_cons.mp hnt with rfl | hn2
    · rw [buildNode]
      apply aggOk_mk es0 hnd (entries.filter (fun e => keyOf l e = k)) hbucket
      · intro c hc
        exact hch c ((mem_allNodesL _ c).mpr ⟨c, hc, self_mem_allNodes c⟩)
      · by_cases hre : rest.isEmpty
        · left
          constructor <;> rw [if_pos hre]
        · right
          constructor <;> rw [if_neg hre]
    · rw [hchildren] at hn2
      exact hch n hn2

theorem pruneNode_none {n : GroupNode} (hp : pruneNode n = none) :
    n.entryCount = 0 := by
  cases n with
  | mk i d v dn lv th ec cs en ex md =>
    show ec = 0
    simp only [pruneNode] at hp
    by_cases hec : ec = 0
    · exact hec
    · rw [if_neg hec] at hp
      exact absurd hp (by simp)

mutual
theorem subtree_zero_hours (es : List TSEntry) :
    ∀ (n : GroupNode), subtreeCount n = 0 → subtreeHours es n = 0
  | .mk i d v dn lv th ec cs en ex md, h => by
    rw [subtreeCount_node] at h
    simp only [GroupNode.children, GroupNode.entries] at h
    rw [subtreeHours_node]
    simp only [GroupNode.children, GroupNode.entries]
    rw [subtree_zero_hoursL es cs (by omega),
      List.length_eq_zero.mp (show en.length = 0 by omega)]
    simp

theorem subtree_zero_hoursL (es : List TSEntry) :
    ∀ (cs : List GroupNode), subtreeCountL cs = 0 → subtreeHoursL es cs = 0
  | [], _ => rfl
  | n :: ns, h => by
    rw [show subtreeCountL (n :: ns) = subtreeCount n + subtreeCountL ns from rfl] at h
    rw [show subtreeHoursL es (n :: ns) = subtreeHours es n + subtreeHoursL es ns from rfl,
      subtree_zero_hours es n (by omega), subtree_zero_hoursL es ns (by omega)]
    simp
end

mutual
theorem prune_measures (es : List TSEntry) :
    ∀ (n : GroupNode), (∀ m ∈ allNodes n, AggOk es m) →
      ∀ (n2 : GroupNode), pruneNode n = some n2 →
        subtreeHours es n2 = subtreeHours es n ∧ subtreeCount n2 = subtreeCount n
  | .mk i d v dn lv th ec cs en ex md, hok, n2, hp => by
    simp only [pruneNode] at hp
    by_cases hec : ec = 0
    · rw [if_pos hec] at hp
      exact absurd hp (by simp)
    · rw [if_neg hec] at hp
      injection hp with hp2
      subst hp2
      have hcs : ∀ m ∈ allNodesL cs, AggOk es m := by
        intro m hm
        apply hok
        rw [allNodes_eq]
        refine List.mem_cons_of_mem _ ?_
        simpa only [GroupNode.children] using hm
      obtain ⟨hH, hC⟩ := prune_measuresL es cs hcs
      constructor
      · rw [subtreeHours_node, subtreeHours_node]
        simp only [GroupNode.children, GroupNode.entries]
        rw [hH]
      · rw [subtreeCount_node, subtreeCount_node]
        simp only [GroupNode.children, GroupNode.entries]
        rw [hC]

theorem prune_measuresL (es : List TSEntry) :
    ∀ (f : List GroupNode), (∀ m ∈ allNodesL f, AggOk es m) →
      subtreeHoursL es (pruneForest f) = subtreeHoursL es f ∧
        subtreeCountL (pruneForest f) = subtreeCountL f
  | [], _ => ⟨rfl, rfl⟩
  | n :: ns, hok => by
    have hokn : ∀ m ∈ allNodes n, AggOk es m := by
      intro m hm
      apply hok
      show m ∈ allNodes n ++ allNodesL ns
      rw [List.mem_append]
      exact Or.inl hm
    have hokns : ∀ m ∈ allNodesL ns, AggOk es m := by
      intro m hm
      apply hok
      show m ∈ allNodes n ++ allNodesL ns
      rw [List.mem_append]
      exact Or.inr hm
    obtain ⟨hH, hC⟩ := prune_measuresL es ns hokns
    simp only [pruneForest]
    cases hp : pruneNode n with
    | some m =>
      obtain ⟨h1, h2⟩ := prune_measures es n hokn m hp
      constructor
      · rw [show subtreeHoursL es (m :: pruneForest ns) =
            subtreeHours es m + subtreeHoursL es (pruneForest ns) from rfl,
          show subtreeHoursL es (n :: ns) = subtreeHours es n + subtreeHoursL es ns from rfl,
          h1, hH]
      · rw [show subtreeCountL (m :: pruneForest ns) =
            subtreeCount m + subtreeCountL (pruneForest ns) from rfl,
          show subtreeCountL (n :: ns) = subtreeCount n + subtreeCountL ns from rfl,
          h2, hC]
    | none =>
      have hec : n.entryCount = 0 := pruneNode_none hp
      have hagg := hokn n (self_mem_allNodes n)
      have hsc : subtreeCount n = 0 := by rw [← hagg.2]; exact hec
      have hsh : subtreeHours es n = 0 := subtree_zero_hours es n hsc
      constructor
      · rw [hH,
          show subtreeHoursL es (n :: ns) = subtreeHours es n + subtreeHoursL es ns from rfl,
          hsh, zero_add]
      · rw [hC,
          show subtreeCountL (n :: ns) = subtreeCount n + subtreeCountL ns from rfl,
          hsc, Nat.zero_add]
end

mutual
theorem prune_aggOk (es : List TSEntry) :
    ∀ (n : GroupNode), (∀ m ∈ allNodes n, AggOk es m) →
      ∀ (n2 : GroupNode), pruneNode n = some n2 → ∀ m ∈ allNodes n2, AggOk es m
  | .mk i d v dn lv th ec cs en ex md, hok, n2, hp, m, hm => by
    simp only [pruneNode] at hp
    by_cases hec : ec = 0
    · rw [if_pos hec] at hp
      exact absurd hp (by simp)
    · rw [if_neg hec] at hp
      injection hp with hp2
      subst hp2
      have hcs : ∀ x ∈ allNodesL cs, AggOk es x := by
        intro x hx
        apply hok
        rw [allNodes_eq]
        refine List.mem_cons_of_mem _ ?_
        simpa only [GroupNode.children] using hx
      rw [allNodes_eq] at hm
      rcases List.mem_cons.mp hm with rfl | hm2
      · have hself := hok _ (self_mem_allNodes (.mk i d v dn lv th ec cs en ex md))
        obtain ⟨hH, hC⟩ := prune_measuresL es cs hcs
        constructor
        · show th = _
          rw [subtreeHours_node]
          simp only [GroupNode.children, GroupNode.entries]
          rw [hH]
          have h1 := hself.1
          rw [subtreeHours_node] at h1
          simpa only [GroupNode.children, GroupNode.entries, GroupNode.totalHours] using h1
        · show ec = _
          rw [subtreeCount_node]
          simp only [GroupNode.children, GroupNode.entries]
          rw [hC]
          have h2 := hself.2
          rw [subtreeCount_node] at h2
          simpa only [GroupNode.children, GroupNode.entries, GroupNode.entryCount] using h2
      · refine prune_aggOkL es cs hcs m ?_
        simpa only [GroupNode.children] using hm2

theorem prune_aggOkL (es : List TSEntry) :
    ∀ (f : List GroupNode), (∀ m ∈ allNodesL f, AggOk es m) →
      ∀ m ∈ allNodesL (pruneForest f), AggOk es m
  | [], _, m, hm => absurd hm (by simp [pruneForest, allNodesL])
  | n :: ns, hok, m, hm => by
    have hokn : ∀ x ∈ allNodes n, AggOk es x := by
      intro x hx
      apply hok
      show x ∈ allNodes n ++ allNodesL ns
      rw [List.mem_append]
      exact Or.inl hx
    have hokns : ∀ x ∈ allNodesL ns, AggOk es x := by
      intro x hx
      apply hok
      show x ∈ allNodes n ++ allNodesL ns
      rw [List.mem_append]
      exact Or.inr hx
    simp only [pruneForest] at hm
    cases hp : pruneNode n with
    | some m2 =>
      rw [hp] at hm
      have hm2 : m ∈ allNodes m2 ++ allNodesL (pruneForest ns) := hm
      rw [List.mem_append] at hm2
      rcases hm2 with h | h
      · exact prune_aggOk es n hokn m2 hp m h
      · exact prune_aggOkL es ns hokns m h
    | none =>
      rw [hp] at hm
      exact prune_aggOkL es ns hokns m hm
end

theorem buildGroupTree_aggOk (cfg : GroupingConfig) (es : List TSEntry)
    (hnd : (es.map TSEntry.id).Nodup) :
    ForestAggOk es (buildGroupTree cfg es) := by
  unfold buildGroupTree
  by_cases hlv : cfg.levels.isEmpty
  · rw [if_pos hlv]
    intro n hn
    rw [mem_allNodesL] at hn
    obtain ⟨t, ht, hnt⟩ := hn
    have ht2 : t = allRootNode es := by simpa using ht
    subst ht2
    have hroot : n = allRootNode es := by
      rw [allNodes_eq] at hnt
      rcases List.mem_cons.mp hnt with rfl | h2
      · rfl
      · exact absurd h2 (by simp [allRootNode, GroupNode.children, allNodesL])
    subst hroot
    constructor
    · show (es.map TSEntry.timeSpentHours).sum = subtreeHours es (allRootNode es)
      rw [subtreeHours_node]
      simp only [allRootNode, GroupNode.children, GroupNode.entries]
      rw [show subtreeHoursL es [] = 0 from rfl,
        sum_hoursOf_map hnd es (fun e he => he), zero_add]
    · show es.length = subtreeCount (allRootNode es)
      rw [subtreeCount_node]
      simp only [allRootNode, GroupNode.children, GroupNode.entries]
      rw [show subtreeCountL [] = 0 from rfl, Nat.zero_add, List.length_map]
  · rw [if_neg hlv]
    have hbase := buildForest_aggOk es hnd cfg.levels 0 "" es (fun e he => he)
    by_cases hc : cfg.collapseEmptyGroups
    · rw [if_pos hc]
      exact prune_aggOkL es _ hbase
    · rw [if_neg hc]
      exact hbase

/-! ## The claims -/

theorem isOk_exists {α β : Type} {e : Except α β} (h : e.isOk = true) :
    ∃ b, e = .ok b := by
  cases e with
  | ok b => exact ⟨b, rfl⟩
  | error a => exact absurd h (by simp [Except.isOk, Except.toBool])

/-- C1: for every real number `h ≥ 0`,
`parseJiraTimeSpent(formatHoursAsJiraTime(h))` differs from `h` by at most
1/60 hour (minute resolution). -/
theorem claim_C1_roundtrip (h : ℚ) (hh : 0 ≤ h) :
    |parseJiraTimeSpent (formatHoursAsJiraTime h) - h| ≤ 1 / 60 := by
  rw [parse_format_eq h hh]
  have h1 : ((⌊(h - ((⌊h⌋ : ℤ) : ℚ)) * 60 + 1 / 2⌋ : ℤ) : ℚ) ≤
      (h - ((⌊h⌋ : ℤ) : ℚ)) * 60 + 1 / 2 := Int.floor_le _
  have h2 : (h - ((⌊h⌋ : ℤ) : ℚ)) * 60 + 1 / 2 <
      ((⌊(h - ((⌊h⌋ : ℤ) : ℚ)) * 60 + 1 / 2⌋ : ℤ) : ℚ) + 1 := Int.lt_floor_add_one _
  rw [abs_le]
  constructor <;> linarith

/-- Witness for C1 at `h = 7/4` (formatted as `1h 45m`). -/
theorem claim_C1_roundtrip_witness :
    (0 : ℚ) ≤ 7 / 4 ∧
      |parseJiraTimeSpent (formatHoursAsJiraTime (7 / 4)) - 7 / 4| ≤ 1 / 60 :=
  ⟨by norm_num, claim_C1_roundtrip (7 / 4) (by norm_num)⟩

/-- C5: `parseJiraTimeSpent` on a time string with optional components
`"Nd"`, `"Mh"`, `"Km"` returns `N*8 + M + K/60` hours (day = 8 hours). -/
theorem claim_C5_components (d h m : Option ℕ) :
    parseJiraTimeSpent (jiraTimeString d h m) =
      ((d.getD 0 : ℕ) : ℚ) * 8 + ((h.getD 0 : ℕ) : ℚ) + ((m.getD 0 : ℕ) : ℚ) / 60 :=
  parseJira_on_components d h m

/-- C2 counterexample: `badEntryKvs` has `timeSpentSeconds = 3600` and
`timeSpentHours = 2`, so `timeSpentHours` is not `timeSpentSeconds / 3600`
(the gap is a full hour) — yet validation accepts it, because
`TimesheetEntrySchema` never relates the two fields. -/
theorem claim_C2_counterexample :
    (validateTimesheetEntry (.vObj badEntryKvs)).isOk = true ∧
      lookupKV badEntryKvs "timeSpentSeconds" = some (.vNum 3600) ∧
      lookupKV badEntryKvs "timeSpentHours" = some (.vNum 2) ∧
      ¬((2 : ℚ) = 3600 / 3600) :=
  ⟨rfl, rfl, rfl, by norm_num⟩

/-- C2 amended: every object accepted by `validateTimesheetEntry` has
`timeSpentSeconds > 0` and `timeSpentHours > 0`; the relation
`timeSpentHours = timeSpentSeconds / 3600` is not checked. -/
theorem claim_C2_amended (kvs : List (String × Value))
    (h : (validateTimesheetEntry (.vObj kvs)).isOk = true) :
    (∃ q : ℚ, lookupKV kvs "timeSpentSeconds" = some (.vNum q) ∧ 0 < q) ∧
      (∃ q : ℚ, lookupKV kvs "timeSpentHours" = some (.vNum q) ∧ 0 < q) := by
  rw [validateTimesheetEntry, validateData_isOk] at h
  obtain ⟨r, hr⟩ := isOk_exists h
  exact timesheetEntry_ok_pos hr

/-- Witness for C2 amended, at the accepted payload `badEntryKvs`. -/
theorem claim_C2_amended_witness :
    (∃ q : ℚ, lookupKV badEntryKvs "timeSpentSeconds" = some (.vNum q) ∧ 0 < q) ∧
      (∃ q : ℚ, lookupKV badEntryKvs "timeSpentHours" = some (.vNum q) ∧ 0 < q) :=
  claim_C2_amended badEntryKvs (by rfl)

/-- C3 counterexample: a config whose level has `dateGroupingType: month`
with `dimension: project` is malformed in the sense of the claim, yet
`validateGroupingConfig` accepts it instead of raising. -/
theorem claim_C3_counterexample :
    (validateGroupingConfig (.vObj cfgNonDateWithTypeKvs)).isOk = true ∧
      lookupKV cfgNonDateWithTypeKvs "levels" =
        some (.vArr [.vObj levelNonDateWithTypeKvs]) ∧
      lookupKV levelNonDateWithTypeKvs "dimension" = some (.vStr "project") ∧
      lookupKV levelNonDateWithTypeKvs "dateGroupingType" = some (.vStr "month") :=
  ⟨rfl, rfl, rfl, rfl⟩

/-- C3 amended: `validateGroupingConfig` raises on an unknown dimension
(every accepted config has only known dimensions), but performs no cross
check between `dateGroupingType` and `dimension`: a non-`date` level with
`dateGroupingType` set, and a `date` level without it, are both accepted. -/
theorem claim_C3_amended :
    (∀ kvs, (validateGroupingConfig (.vObj kvs)).isOk = true →
      ∃ xs, lookupKV kvs "levels" = some (.vArr xs) ∧
        ∀ x ∈ xs, ∃ fk s, x = .vObj fk ∧
          lookupKV fk "dimension" = some (.vStr s) ∧ s ∈ groupingDimensions) ∧
      (validateGroupingConfig (.vObj cfgNonDateWithTypeKvs)).isOk = true ∧
      (validateGroupingConfig (.vObj cfgDateNoTypeKvs)).isOk = true := by
  refine ⟨?_, rfl, rfl⟩
  intro kvs h
  rw [validateGroupingConfig, validateData_isOk] at h
  obtain ⟨r, hr⟩ := isOk_exists h
  exact groupingConfig_ok_dims hr

/-- Witness for C3 amended, at the accepted payload `goodCfgKvs`. -/
theorem claim_C3_amended_witness :
    ∃ xs, lookupKV goodCfgKvs "levels" = some (.vArr xs) ∧
      ∀ x ∈ xs, ∃ fk s, x = .vObj fk ∧
        lookupKV fk "dimension" = some (.vStr s) ∧ s ∈ groupingDimensions :=
  claim_C3_amended.1 goodCfgKvs (by rfl)

/-- C4: `validateData` returns exactly the parsed value when the input
matches the schema; it succeeds precisely when parsing does (so nothing is
processed on failure); and on failure the error message is the prefix
followed by the joined `path: message` list. -/
theorem claim_C4_validateData (schema : Sch) (em : Option String) (data : Value) :
    (∀ r, parseS schema data = .ok r → validateData schema data em = .ok r) ∧
      (validateData schema data em).isOk = (parseS schema data).isOk ∧
      (∀ es, parseS schema data = .error es →
        validateData schema data em = .error (errPrefix em ++ joinIssues es)) :=
  ⟨fun _ hr => validateData_of_ok hr em, validateData_isOk schema data em,
    fun _ hes => validateData_of_error hes em⟩

/-- Witness for C4: a number against `z.string()`, with no caller message. -/
theorem claim_C4_validateData_witness :
    validateData .str (.vNum 3) none =
      .error (errPrefix none ++ joinIssues [⟨[], "Expected string"⟩]) :=
  (claim_C4_validateData .str none (.vNum 3)).2.2 [⟨[], "Expected string"⟩] (by rfl)

/-- C6: in every forest the group tree builder produces, each node's
`totalHours` equals the sum over its children plus the hours of its direct
entries, equals the subtree hour sum (within 1e-9), and `entryCount` is the
subtree entry count.  The builder is modelled from the specification; entry
ids are assumed unique as the data model states. -/
theorem claim_C6_aggregates (cfg : GroupingConfig) (es : List TSEntry)
    (hnd : (es.map TSEntry.id).Nodup) :
    ∀ n ∈ allNodesL (buildGroupTree cfg es),
      n.totalHours = (n.children.map GroupNode.totalHours).sum +
          (n.entries.map (hoursOf es)).sum ∧
        |n.totalHours - subtreeHours es n| ≤ 1 / 1000000000 ∧
        n.entryCount = subtreeCount n := by
  have hok := buildGroupTree_aggOk cfg es hnd
  intro n hn
  have hagg := hok n hn
  refine ⟨?_, by rw [hagg.1]; simp, hagg.2⟩
  have hch : ∀ c ∈ n.children, AggOk es c := fun c hc =>
    hok c (child_mem_allNodesL _ n hn c hc)
  rw [hagg.1, subtreeHours_node, subtreeHoursL_eq_sum]
  congr 1
  exact congrArg List.sum (List.map_congr_left (fun c hc => ((hch c hc).1).symm))

/-- Witness for C6 on a two-entry, one-level configuration. -/
theorem claim_C6_aggregates_witness :
    (esW.map TSEntry.id).Nodup ∧
      ∀ n ∈ allNodesL (buildGroupTree cfgW esW),
        n.totalHours = (n.children.map GroupNode.totalHours).sum +
            (n.entries.map (hoursOf esW)).sum ∧
          |n.totalHours - subtreeHours esW n| ≤ 1 / 1000000000 ∧
          n.entryCount = subtreeCount n :=
  ⟨by decide, claim_C6_aggregates cfgW esW (by decide)⟩

/-- C7: a `GroupingConfig` with an empty `levels` list is accepted by both
`isGroupingConfig` and `validateGroupingConfig`. -/
theorem claim_C7_empty_levels :
    isGroupingConfig (.vObj emptyLevelsKvs) = true ∧
      (validateGroupingConfig (.vObj emptyLevelsKvs)).isOk = true :=
  ⟨rfl, rfl⟩

/-- C8: each boolean type guard agrees with the throwing validator over the
same schema: the guard returns `true` exactly when validation succeeds. -/
theorem claim_C8_guards_agree (v : Value) :
    isGroupingConfig v = (validateGroupingConfig v).isOk ∧
      isTimesheetEntry v = (validateTimesheetEntry v).isOk :=
  ⟨(validateData_isOk _ _ _).symm, (validateData_isOk _ _ _).symm⟩

/-- C9: `isTimesheetsRequest` accepts only requests whose `page`, when
present, is a positive number, and whose `limit`, when present, is a
positive number at most 1000; `filters` and `grouping` are unconstrained
(`z.any()`), as the accepted garbage request shows. -/
theorem claim_C9_request_bounds :
    (∀ kvs, isTimesheetsRequest (.vObj kvs) = true →
      (∀ u, lookupKV kvs "page" = some u →
        u = .vUndef ∨ ∃ q : ℚ, u = .vNum q ∧ 0 < q) ∧
      (∀ u, lookupKV kvs "limit" = some u →
        u = .vUndef ∨ ∃ q : ℚ, u = .vNum q ∧ 0 < q ∧ q ≤ 1000)) ∧
      isTimesheetsRequest (.vObj garbageRequestKvs) = true := by
  refine ⟨?_, rfl⟩
  intro kvs h
  obtain ⟨r, hr⟩ := isOk_exists h
  exact timesheetsRequest_ok_bounds hr

/-- Witness for C9 at the accepted garbage request. -/
theorem claim_C9_request_bounds_witness :
    (∀ u, lookupKV garbageRequestKvs "page" = some u →
      u = .vUndef ∨ ∃ q : ℚ, u = .vNum q ∧ 0 < q) ∧
      (∀ u, lookupKV garbageRequestKvs "limit" = some u →
        u = .vUndef ∨ ∃ q : ℚ, u = .vNum q ∧ 0 < q ∧ q ≤ 1000) :=
  claim_C9_request_bounds.1 garbageRequestKvs (by rfl)

/-- C10: `sanitizeFileName` output contains only characters of
`[a-zA-Z0-9.-]` and underscores, never two consecutive underscores, never a
leading or trailing underscore, and the function is idempotent. -/
theorem claim_C10_sanitize (s : List Char) :
    (∀ c ∈ sanitizeFileName s, fileNameChar c = true ∨ c = '_') ∧
      List.Chain' noDoubleUnd (sanitizeFileName s) ∧
      (sanitizeFileName s).head? ≠ some '_' ∧
      (sanitizeFileName s).getLast? ≠ some '_' ∧
      sanitizeFileName (sanitizeFileName s) = sanitizeFileName s := by
  obtain ⟨h1, h2, h3, h4⟩ := sanitizeFileName_props s
  exact ⟨h1, h2, h3, h4, sanitizeFileName_idem s⟩

/-- Witness for C10 at a concrete file name. -/
theorem claim_C10_sanitize_witness :
    sanitizeFileName (sanitizeFileName (" my file!!.txt ".data)) =
      sanitizeFileName (" my file!!.txt ".data) :=
  (claim_C10_sanitize (" my file!!.txt ".data)).2.2.2.2
